import Mathlib

/-!
Shallow embedding of the WebSocket room relay in `src/Game/server/index.ts`.

Connections (`WebSocket` objects) are identified by natural numbers.  The
mutable module state of the server (the `rooms` map, the per-connection
`me` closure variables, the `latestZones` / `ticking` coalescing state and
the socket flags `isAlive` / `readyState` / `bufferedAmount`) is collected
in an explicit `ServerState`; every message actually written to a socket is
appended to the `outbox` trace, and every heartbeat ping to the `pings`
trace.  Randomness (`crypto.randomBytes`, `Math.random`) is passed in as
explicit arguments.
-/

namespace WsRelay

/-- `type Seat = "A" | "B"` (index.ts line 6). -/
inductive Seat where
  | A
  | B
deriving DecidableEq

/-- The string a seat interpolates to in messages such as
`Seat ${seat} is occupied`. -/
def Seat.str : Seat → String
  | .A => "A"
  | .B => "B"

/-- The opposite seat: `me.seat === "A" ? "B" : "A"` (line 145). -/
def Seat.other : Seat → Seat
  | .A => .B
  | .B => .A

/-- `type Player = { id; ws; room; seat; name; alive }` (line 7).
The `ws` field is the connection identifier. -/
structure Player where
  id : String
  ws : Nat
  room : String
  seat : Seat
  name : String
  alive : Bool
deriving DecidableEq

/-- `type Room = { A?: Player; B?: Player; spectators?: Set<WebSocket> }`
(line 8).  The optional spectator `Set` is modelled as a duplicate-free
list of connection ids; an absent set and an empty set behave identically
in every reader of the field, so both are the empty list. -/
structure Room where
  A : Option Player := none
  B : Option Player := none
  spectators : List Nat := []
deriving DecidableEq

/-- Dynamic seat read `room[seat]`. -/
def Room.get (r : Room) : Seat → Option Player
  | .A => r.A
  | .B => r.B

/-- Dynamic seat write `room[seat] = p`. -/
def Room.set (r : Room) : Seat → Option Player → Room
  | .A, p => { r with A := p }
  | .B, p => { r with B := p }

/-- Association-list lookup, first binding wins (models `Map.get` /
`WeakMap.get`). -/
def getEntry {κ α : Type} [DecidableEq κ] (k : κ) : List (κ × α) → Option α
  | [] => none
  | (k', v) :: rest => if k = k' then some v else getEntry k rest

/-- Association-list update (models `Map.set` / `WeakMap.set`): replaces
the first binding of the key, or appends a new binding. -/
def setEntry {κ α : Type} [DecidableEq κ] (k : κ) (v : α) :
    List (κ × α) → List (κ × α)
  | [] => [(k, v)]
  | (k', v') :: rest =>
    if k = k' then (k, v) :: rest else (k', v') :: setEntry k v rest

/-- Association-list removal (models `Map.delete` / `WeakMap.delete`). -/
def removeEntry {κ α : Type} [DecidableEq κ] (k : κ) :
    List (κ × α) → List (κ × α)
  | [] => []
  | (k', v) :: rest =>
    if k = k' then rest else (k', v) :: removeEntry k rest

/-- One entry of a `roster` message:
`{ id: p.id, name: p.name, seat: p.seat }` (line 36). -/
structure RosterEntry where
  id : String
  name : String
  seat : Seat
deriving DecidableEq

/-- `type ZonesPayload = { type: "zones"; fromSeat; zones; seq? }`
(line 57).  The relayed `zones` object is treated as an opaque value,
modelled by a natural number. -/
structure ZonesPayload where
  fromSeat : Seat
  zones : Nat
  seq : Option Nat
deriving DecidableEq

/-- Server→client messages (§6 of the protocol).  A seat join carries
`seat`, a spectator join carries `role: "spectator"`; this is the
`seat : Option Seat` distinction of the `joined` constructor. -/
inductive SMsg where
  | hello
  | created (room : String)
  | joined (room : String) (id : String) (seat : Option Seat) (name : String)
  | error (reason : String)
  | roster (room : String) (entries : List RosterEntry)
  | zones (fromSeat : Seat) (zones : Nat) (seq : Option Nat)
deriving DecidableEq

/-- Per-socket flags: `readyState === OPEN`, `bufferedAmount`, and the
heartbeat flag `isAlive` (line 79). -/
structure ConnInfo where
  isOpen : Bool := true
  buffered : Nat := 0
  isAlive : Bool := true
deriving DecidableEq

/-- The whole mutable state of the server process, plus the
observable output traces (`outbox` for data frames, `pings` for
heartbeat ping frames). -/
structure ServerState where
  rooms : List (String × Room) := []
  conns : List (Nat × ConnInfo) := []
  me : List (Nat × Player) := []
  latest : List (Nat × ZonesPayload) := []
  ticking : List Nat := []
  outbox : List (Nat × SMsg) := []
  pings : List Nat := []
deriving DecidableEq

/-- The congestion threshold `256 * 1024` of `send` (line 26). -/
def bufferThreshold : Nat := 256 * 1024

/-- `send(ws, msg, allowDrop)` (lines 24-28): no-op unless the socket is
open; with `allowDrop`, also a no-op when the outbound buffer exceeds the
threshold; otherwise the message is written out (appended to the trace). -/
def send (st : ServerState) (ws : Nat) (m : SMsg) (allowDrop : Bool) :
    ServerState :=
  match getEntry ws st.conns with
  | none => st
  | some c =>
    if c.isOpen = false then st
    else if allowDrop = true ∧ bufferThreshold < c.buffered then st
    else { st with outbox := st.outbox ++ [(ws, m)] }

/-- The roster computed by `broadcastRoom` (lines 34-36):
`[r.A, r.B].filter(Boolean).map(p => ({id, name, seat}))`. -/
def rosterOf (r : Room) : List RosterEntry :=
  ([r.A, r.B].filterMap id).map (fun p => ⟨p.id, p.name, p.seat⟩)

/-- The connections `broadcastRoom` writes to, in source order: seat A's
occupant, seat B's occupant, then every spectator. -/
def roomRecipients (r : Room) : List Nat :=
  (([r.A, r.B].filterMap id).map Player.ws) ++ r.spectators

/-- `if (p) send(p.ws, msg, false)` for an optional seat occupant
(line 37). -/
def sendToOpt (st : ServerState) (p? : Option Player) (m : SMsg) : ServerState :=
  match p? with
  | some p => send st p.ws m false
  | none => st

/-- `for (const s of set) send(s, msg, false)` for the spectator loop
(line 38). -/
def sendToAll (st : ServerState) (l : List Nat) (m : SMsg) : ServerState :=
  l.foldl (fun s w => send s w m false) st

/-- `broadcastRoom(roomId)` (lines 31-39): look the room up, compute the
roster and send it with `allowDrop = false` to both seat occupants and
every spectator. -/
def broadcastRoom (st : ServerState) (roomId : String) : ServerState :=
  match getEntry roomId st.rooms with
  | none => st
  | some r =>
    sendToAll
      (sendToOpt (sendToOpt st r.A (.roster roomId (rosterOf r)))
        r.B (.roster roomId (rosterOf r)))
      r.spectators (.roster roomId (rosterOf r))

/-! ### Coalesced zones flushing (lines 56-73) -/

/-- `scheduleFlush(to)` (lines 62-64 of the arming part): if a timer for
this destination is already pending do nothing, otherwise arm one. -/
def scheduleFlush (st : ServerState) (dest : Nat) : ServerState :=
  if dest ∈ st.ticking then st else { st with ticking := st.ticking ++ [dest] }

/-- The `push` closure of the zones handler (lines 140-143):
`latestZones.set(sock, payload)` — overwrite, latest wins — then
`scheduleFlush(sock)`. -/
def push (st : ServerState) (sock : Nat) (p : ZonesPayload) : ServerState :=
  scheduleFlush { st with latest := setEntry sock p st.latest } sock

/-- The timer callback body of `scheduleFlush` (lines 65-72): disarm the
timer, read the pending slot; if empty return, else send the payload with
`allowDrop = true` and delete the slot. -/
def flush (st : ServerState) (dest : Nat) : ServerState :=
  let st1 := { st with ticking := st.ticking.erase dest }
  match getEntry dest st1.latest with
  | none => st1
  | some p =>
    let st2 := send st1 dest (.zones p.fromSeat p.zones p.seq) true
    { st2 with latest := removeEntry dest st2.latest }

/-! ### Join handling (lines 97-131) -/

/-- JavaScript `String.prototype.trim` (lines 98 and 100): strip leading
and trailing whitespace. -/
def jsTrim (s : String) : String :=
  String.mk (((s.data.dropWhile Char.isWhitespace).reverse.dropWhile
    Char.isWhitespace).reverse)

/-- JavaScript `String.prototype.slice(0, n)` (line 100): the first `n`
characters. -/
def jsTake (n : Nat) (s : String) : String :=
  String.mk (s.data.take n)

/-- JavaScript `String.prototype.toUpperCase` restricted to the ASCII
inputs the protocol uses (`msg.seat` at line 99); on ASCII it uppercases
the letters a-z and leaves every other character unchanged, which is
exactly `Char.toUpper` mapped over the characters. -/
def jsToUpperCase (s : String) : String :=
  String.mk (s.data.map Char.toUpper)

/-- Outcome of the seat-assignment decision for a join request. -/
inductive JoinOutcome where
  | seated (s : Seat)
  | spectator
  | rejected (reason : String)
deriving DecidableEq

/-- `pickAuto` (line 106): `!room.A ? "A" : !room.B ? "B" : "spectator"`,
folded together with the occupancy check of line 121. -/
def pickAuto (room : Room) : JoinOutcome :=
  if room.A.isNone then .seated .A
  else if room.B.isNone then .seated .B
  else .spectator

/-- The seat-assignment decision of the join handler (lines 106-121),
as a function of the already-uppercased request and the occupancy:
explicit `"A"`/`"B"` succeed iff the seat is free and otherwise reject
with reason `Seat ${seat} is occupied`; `"AUTO"` runs `pickAuto`;
anything else becomes a spectator. -/
def seatAssign (requested : String) (room : Room) : JoinOutcome :=
  if requested = "A" ∨ requested = "B" then
    let s : Seat := if requested = "A" then .A else .B
    if (room.get s).isSome then .rejected ("Seat " ++ s.str ++ " is occupied")
    else .seated s
  else if requested = "AUTO" then pickAuto room
  else .spectator

/-- `(String(msg.name || "").trim() || "Player").slice(0, 24)` (line 100). -/
def normalizeName (rawName : String) : String :=
  jsTake 24 (if jsTrim rawName = "" then "Player" else jsTrim rawName)

/-- The join handler (lines 97-131).  `fresh` stands for the random
suffix `Math.random().toString(36).slice(2, 7)` used to mint the player
or spectator id.  Steps, in source order: trim the room id and reject an
empty one with `room required`; uppercase the seat request; look the room
up, creating an empty one if absent, and (re)store it; run seat
assignment; on rejection reply `error` without further mutation; on a
spectator outcome add the socket to the spectator set, reply `joined`
with the spectator role and broadcast the roster; on a seat outcome
record the new `Player` in the room and in this connection's `me`
variable, reply `joined` with the seat and broadcast the roster. -/
def handleJoin (st : ServerState) (ws : Nat)
    (rawRoom rawSeat rawName fresh : String) : ServerState :=
  let roomId := jsTrim rawRoom
  let requested := jsToUpperCase rawSeat
  let name := normalizeName rawName
  if roomId = "" then send st ws (.error "room required") false
  else
    let room := (getEntry roomId st.rooms).getD {}
    let st1 := { st with rooms := setEntry roomId room st.rooms }
    match seatAssign requested room with
    | .rejected reason => send st1 ws (.error reason) false
    | .spectator =>
      let room' := { room with spectators :=
        if ws ∈ room.spectators then room.spectators
        else room.spectators ++ [ws] }
      let st2 := { st1 with rooms := setEntry roomId room' st1.rooms }
      let st3 := send st2 ws (.joined roomId ("Spectator-" ++ fresh) none name) false
      broadcastRoom st3 roomId
    | .seated s =>
      let p : Player := ⟨"Player-" ++ fresh, ws, roomId, s, name, true⟩
      let room' := room.set s (some p)
      let st2 := { st1 with rooms := setEntry roomId room' st1.rooms,
                            me := setEntry ws p st1.me }
      let st3 := send st2 ws (.joined roomId p.id (some s) name) false
      broadcastRoom st3 roomId

/-! ### Zones relay (lines 134-150) -/

/-- The zones handler (lines 134-150): only runs when `me` is set for
this connection, i.e. when the connection completed a seat join (a
spectator join leaves `me` null).  Looks up the sender's room, builds the
payload tagged with the sender's seat, and `push`es it to the opposite
seat's occupant (if any) and to every spectator. -/
def handleZones (st : ServerState) (ws : Nat) (z : Nat) (seq : Option Nat) :
    ServerState :=
  match getEntry ws st.me with
  | none => st
  | some mp =>
    match getEntry mp.room st.rooms with
    | none => st
    | some room =>
      let payload : ZonesPayload := ⟨mp.seat, z, seq⟩
      let st1 := match room.get mp.seat.other with
                 | some other => push st other.ws payload
                 | none => st
      room.spectators.foldl (fun s w => push s w payload) st1

/-! ### Close handling (lines 153-170) -/

/-- The spectator branch of the close handler (lines 156-162): scan the
rooms in map order for the first one whose spectator set contains this
socket, delete it there and stop.  Returns the room id of the hit and
the updated room list. -/
def closeSpectatorScan (ws : Nat) :
    List (String × Room) → Option (String × List (String × Room))
  | [] => none
  | (id, r) :: rest =>
    if ws ∈ r.spectators then
      some (id, (id, { r with spectators := r.spectators.erase ws }) :: rest)
    else
      match closeSpectatorScan ws rest with
      | none => none
      | some (hit, rest') => some (hit, (id, r) :: rest')

/-- Line 167: `if (room[me.seat]?.id === me.id) room[me.seat] = undefined` —
the seat is cleared only when it is still held by this very player,
compared by id. -/
def closeRoomUpdate (mp : Player) (room : Room) : Room :=
  if (room.get mp.seat).map Player.id = some mp.id
  then room.set mp.seat none else room

/-- The close handler (lines 153-170).  Without a `me` record, remove the
socket from the first spectator set containing it and broadcast that
room's roster.  With one, clear the seat (only if still held by this very
player, compared by id) and broadcast the roster. -/
def handleClose (st : ServerState) (ws : Nat) : ServerState :=
  match getEntry ws st.me with
  | none =>
    match closeSpectatorScan ws st.rooms with
    | none => st
    | some (roomId, rooms') => broadcastRoom { st with rooms := rooms' } roomId
  | some mp =>
    match getEntry mp.room st.rooms with
    | none => st
    | some room =>
      broadcastRoom
        { st with rooms := setEntry mp.room (closeRoomUpdate mp room) st.rooms }
        mp.room

/-- Mark a socket closed (its `readyState` leaves OPEN). -/
def markClosed (st : ServerState) (ws : Nat) : ServerState :=
  match getEntry ws st.conns with
  | none => st
  | some c => { st with conns := setEntry ws { c with isOpen := false } st.conns }

/-- A socket closing (a close frame, or `ws.terminate()` from the
heartbeat sweep): the socket leaves the OPEN state and the close handler
runs. -/
def closeConn (st : ServerState) (ws : Nat) : ServerState :=
  handleClose (markClosed st ws) ws

/-! ### Heartbeat (lines 78-80 and 173-180) -/

/-- The `pong` listener (line 80): `ws.isAlive = true`.  (The source also
sets `me.alive = true`; the `Player.alive` field is written there and on
creation but read nowhere, so the write is not tracked per room copy.) -/
def handlePong (st : ServerState) (ws : Nat) : ServerState :=
  match getEntry ws st.conns with
  | none => st
  | some c => { st with conns := setEntry ws { c with isAlive := true } st.conns }

/-- One socket's share of the heartbeat sweep (lines 175-179): a socket
whose `isAlive` flag is still false is terminated; otherwise the flag is
cleared and a ping is sent.  Sockets no longer open are no longer in
`wss.clients` and are skipped. -/
def sweepOne (st : ServerState) (ws : Nat) : ServerState :=
  match getEntry ws st.conns with
  | none => st
  | some c =>
    if c.isOpen = false then st
    else if c.isAlive = false then closeConn st ws
    else { st with conns := setEntry ws { c with isAlive := false } st.conns,
                   pings := st.pings ++ [ws] }

/-- The heartbeat sweep `setInterval` body (lines 174-180), iterating
over the current clients. -/
def sweep (st : ServerState) : ServerState :=
  (st.conns.map Prod.fst).foldl sweepOne st

/-! ### Room creation (lines 41-45 and 89-94) -/

/-- The lowercase hex digit used by `Buffer.toString("hex")`. -/
def hexDigitChar (n : Nat) : Char :=
  if n < 10 then Char.ofNat (48 + n) else Char.ofNat (87 + n)

/-- `Buffer.toString("hex")` of a byte list: two lowercase hex digits per
byte, high nibble first. -/
def bytesToHex (bs : List Nat) : String :=
  String.mk ((bs.map fun b => [hexDigitChar (b / 16 % 16), hexDigitChar (b % 16)]).flatten)

/-- `generateUniqueRoomId` (lines 41-45): draw `randomBytes(16)`, render
as hex, retry while the id is taken.  The entropy source is the explicit
list of byte-strings to draw from; the function returns the chosen id and
the unconsumed entropy, or `none` if the supply runs out. -/
def generateUniqueRoomId (rooms : List (String × Room)) :
    List (List Nat) → Option (String × List (List Nat))
  | [] => none
  | bs :: rest =>
    let id := bytesToHex bs
    if (getEntry id rooms).isSome then generateUniqueRoomId rooms rest
    else some (id, rest)

/-- The registry-level `createRoom` operation: the `create` branch of the
message handler (lines 89-94) minus the reply — generate a unique id and
store an empty room under it (`if (!rooms.has(roomId)) rooms.set(roomId, {})`). -/
def createRoom (entropy : List (List Nat)) (rooms : List (String × Room)) :
    Option (String × List (String × Room) × List (List Nat)) :=
  match generateUniqueRoomId rooms entropy with
  | none => none
  | some (id, rest) =>
    some (id, (if (getEntry id rooms).isSome then rooms else setEntry id {} rooms), rest)

/-- `createRoom` iterated `n` times, threading registry and entropy. -/
def createRoomN : Nat → List (List Nat) → List (String × Room) →
    Option (List String × List (String × Room) × List (List Nat))
  | 0, entropy, rooms => some ([], rooms, entropy)
  | n + 1, entropy, rooms =>
    match createRoom entropy rooms with
    | none => none
    | some (id, rooms', rest) =>
      match createRoomN n rest rooms' with
      | none => none
      | some (ids, rooms'', rest') => some (id :: ids, rooms'', rest')

/-- The `create` branch of the message handler (lines 89-94). -/
def handleCreate (st : ServerState) (ws : Nat) (entropy : List (List Nat)) :
    Option (ServerState × List (List Nat)) :=
  match createRoom entropy st.rooms with
  | none => none
  | some (id, rooms', rest) =>
    some (send { st with rooms := rooms' } ws (.created id) false, rest)

/-! ### The event view of the server -/

/-- Externally visible events the relay reacts to: inbound frames, pongs,
socket closures, a coalescing timer firing, and the heartbeat sweep. -/
inductive Event where
  | evJoin (ws : Nat) (room seat name fresh : String)
  | evZones (ws : Nat) (z : Nat) (seq : Option Nat)
  | evPong (ws : Nat)
  | evClose (ws : Nat)
  | evFlushTimer (ws : Nat)
  | evSweep
deriving DecidableEq

/-- Dispatch of one event to its handler. -/
def applyEvent (st : ServerState) : Event → ServerState
  | .evJoin ws room seat name fresh => handleJoin st ws room seat name fresh
  | .evZones ws z seq => handleZones st ws z seq
  | .evPong ws => handlePong st ws
  | .evClose ws => closeConn st ws
  | .evFlushTimer ws => flush st ws
  | .evSweep => sweep st

/-- A whole event sequence, oldest first. -/
def applyEvents (st : ServerState) : List Event → ServerState
  | [] => st
  | e :: es => applyEvents (applyEvent st e) es

/-! ## Basic lemmas about the association-list maps -/

theorem getEntry_setEntry {κ α : Type} [DecidableEq κ] (k k' : κ) (v : α)
    (l : List (κ × α)) :
    getEntry k (setEntry k' v l) = if k = k' then some v else getEntry k l := by
  induction l with
  | nil =>
    by_cases h : k = k' <;> simp [setEntry, getEntry, h]
  | cons hd tl ih =>
    obtain ⟨k₀, v₀⟩ := hd
    by_cases h1 : k' = k₀
    · subst h1
      by_cases h2 : k = k' <;> simp [setEntry, getEntry, h2]
    · by_cases h2 : k = k₀
      · subst h2
        have h3 : ¬k = k' := fun he => h1 he.symm
        simp [setEntry, getEntry, h1, h3]
      · simp [setEntry, getEntry, h1, h2, ih]

theorem setEntry_self {κ α : Type} [DecidableEq κ] {k : κ} {v : α}
    {l : List (κ × α)} (h : getEntry k l = some v) : setEntry k v l = l := by
  induction l with
  | nil => simp [getEntry] at h
  | cons hd tl ih =>
    obtain ⟨k₀, v₀⟩ := hd
    by_cases h2 : k = k₀
    · subst h2
      simp [getEntry] at h
      simp [setEntry, h]
    · simp [getEntry, h2] at h
      simp [setEntry, h2, ih h]

theorem setEntry_setEntry {κ α : Type} [DecidableEq κ] (k : κ) (v w : α)
    (l : List (κ × α)) : setEntry k w (setEntry k v l) = setEntry k w l := by
  induction l with
  | nil => simp [setEntry]
  | cons hd tl ih =>
    obtain ⟨k₀, v₀⟩ := hd
    by_cases h : k = k₀ <;> simp [setEntry, h, ih]

theorem removeEntry_sublist {κ α : Type} [DecidableEq κ] (k : κ)
    (l : List (κ × α)) : (removeEntry k l).Sublist l := by
  induction l with
  | nil => simp [removeEntry]
  | cons hd tl ih =>
    obtain ⟨k₀, v₀⟩ := hd
    by_cases h : k = k₀
    · have he : removeEntry k ((k₀, v₀) :: tl) = tl := by
        simp [removeEntry, h]
      rw [he]
      exact List.sublist_cons_self _ _
    · have he : removeEntry k ((k₀, v₀) :: tl) = (k₀, v₀) :: removeEntry k tl := by
        simp [removeEntry, h]
      rw [he]
      exact List.Sublist.cons₂ _ ih

theorem getEntry_eq_none_of_not_mem_keys {κ α : Type} [DecidableEq κ]
    {k : κ} {l : List (κ × α)} (h : k ∉ l.map Prod.fst) :
    getEntry k l = none := by
  induction l with
  | nil => simp [getEntry]
  | cons hd tl ih =>
    obtain ⟨k₀, v₀⟩ := hd
    have h1 : ¬k = k₀ := fun he => h (by simp [he])
    have h2 : k ∉ tl.map Prod.fst := fun he => h (by simp [he])
    simp [getEntry, h1, ih h2]

theorem getEntry_removeEntry {κ α : Type} [DecidableEq κ] {k : κ}
    {l : List (κ × α)} (h : (l.map Prod.fst).Nodup) :
    getEntry k (removeEntry k l) = none := by
  induction l with
  | nil => simp [removeEntry, getEntry]
  | cons hd tl ih =>
    obtain ⟨k₀, v₀⟩ := hd
    rw [List.map_cons, List.nodup_cons] at h
    by_cases h2 : k = k₀
    · subst h2
      simp only [removeEntry, if_pos rfl]
      exact getEntry_eq_none_of_not_mem_keys h.1
    · simp [removeEntry, h2, getEntry, ih h.2]

theorem mem_keys_setEntry {κ α : Type} [DecidableEq κ] {k' k : κ} {v : α}
    {l : List (κ × α)} :
    k' ∈ (setEntry k v l).map Prod.fst ↔ k' = k ∨ k' ∈ l.map Prod.fst := by
  induction l with
  | nil => simp [setEntry]
  | cons hd tl ih =>
    obtain ⟨k₀, v₀⟩ := hd
    by_cases h : k = k₀
    · subst h
      have he : setEntry k v ((k, v₀) :: tl) = (k, v) :: tl := by
        simp [setEntry]
      rw [he]
      simp
    · have he : setEntry k v ((k₀, v₀) :: tl) = (k₀, v₀) :: setEntry k v tl := by
        simp [setEntry, h]
      rw [he]
      simp [ih]
      tauto

theorem setEntry_keys_nodup {κ α : Type} [DecidableEq κ] (k : κ) (v : α)
    {l : List (κ × α)} (h : (l.map Prod.fst).Nodup) :
    ((setEntry k v l).map Prod.fst).Nodup := by
  induction l with
  | nil => simp [setEntry]
  | cons hd tl ih =>
    obtain ⟨k₀, v₀⟩ := hd
    rw [List.map_cons, List.nodup_cons] at h
    by_cases h2 : k = k₀
    · subst h2
      have he : setEntry k v ((k, v₀) :: tl) = (k, v) :: tl := by
        simp [setEntry]
      rw [he, List.map_cons, List.nodup_cons]
      exact h
    · have hmem : k₀ ∉ (setEntry k v tl).map Prod.fst := by
        intro hc
        rcases mem_keys_setEntry.1 hc with h3 | h3
        · exact h2 h3.symm
        · exact h.1 h3
      have he : setEntry k v ((k₀, v₀) :: tl) = (k₀, v₀) :: setEntry k v tl := by
        simp [setEntry, h2]
      rw [he, List.map_cons, List.nodup_cons]
      exact ⟨hmem, ih h.2⟩

/-! ## Uppercasing lemmas -/

theorem char_toNat_ofNat {n : Nat} (h : n.isValidChar) :
    (Char.ofNat n).toNat = n := by
  simp [Char.ofNat, h, Char.ofNatAux, Char.toNat, UInt32.toNat, BitVec.toNat_ofNatLt]

theorem char_toUpper_eq (c : Char) :
    c.toUpper = if c.toNat ≥ 97 ∧ c.toNat ≤ 122 then Char.ofNat (c.toNat - 32) else c :=
  rfl

theorem char_toUpper_idem (c : Char) : c.toUpper.toUpper = c.toUpper := by
  by_cases h : c.toNat ≥ 97 ∧ c.toNat ≤ 122
  · have hv : (c.toNat - 32).isValidChar := by
      unfold Nat.isValidChar
      left
      omega
    have h2 := char_toNat_ofNat hv
    rw [char_toUpper_eq c, if_pos h, char_toUpper_eq, if_neg]
    rw [h2]
    omega
  · rw [char_toUpper_eq c, if_neg h, char_toUpper_eq c, if_neg h]

theorem jsToUpperCase_idem (s : String) :
    jsToUpperCase (jsToUpperCase s) = jsToUpperCase s := by
  unfold jsToUpperCase
  show String.mk (List.map Char.toUpper (List.map Char.toUpper s.data)) = _
  rw [List.map_map]
  congr 1
  apply List.map_congr_left
  intro c _
  exact char_toUpper_idem c

/-! ## Shape lemmas for `send` and `broadcastRoom` -/

/-- `send` either does nothing or appends exactly one message to the
outbox; no other field of the state ever changes. -/
theorem send_cases (st : ServerState) (ws : Nat) (m : SMsg) (d : Bool) :
    send st ws m d = st ∨
    send st ws m d = { st with outbox := st.outbox ++ [(ws, m)] } := by
  unfold send
  cases getEntry ws st.conns with
  | none => left; rfl
  | some c =>
    by_cases h1 : c.isOpen = false
    · left; simp [h1]
    · by_cases h2 : d = true ∧ bufferThreshold < c.buffered
      · left; simp [h1, h2]
      · right; simp [h1, h2]

/-- A socket that is open receives every non-droppable send. -/
theorem send_open {st : ServerState} {ws : Nat} {c : ConnInfo}
    (hc : getEntry ws st.conns = some c) (ho : c.isOpen = true) (m : SMsg) :
    send st ws m false = { st with outbox := st.outbox ++ [(ws, m)] } := by
  unfold send
  rw [hc]
  simp [ho]

/-- A droppable send on an open, uncongested socket goes through. -/
theorem send_drop_ok {st : ServerState} {ws : Nat} {c : ConnInfo}
    (hc : getEntry ws st.conns = some c) (ho : c.isOpen = true)
    (hb : c.buffered ≤ bufferThreshold) (m : SMsg) :
    send st ws m true = { st with outbox := st.outbox ++ [(ws, m)] } := by
  unfold send
  rw [hc]
  simp [ho]
  intro hcon
  exact absurd hcon (Nat.not_lt.2 hb)

/-- A droppable send on a congested socket is silently skipped. -/
theorem send_congested {st : ServerState} {ws : Nat} {c : ConnInfo}
    (hc : getEntry ws st.conns = some c) (ho : c.isOpen = true)
    (hb : bufferThreshold < c.buffered) (m : SMsg) :
    send st ws m true = st := by
  unfold send
  rw [hc]
  simp [ho, hb]

/-- `st'` is `st` with some messages appended to the outbox and every
other field untouched. -/
def OutboxOnly (st st' : ServerState) : Prop :=
  ∃ δ, st' = { st with outbox := st.outbox ++ δ }

theorem outboxOnly_refl (st : ServerState) : OutboxOnly st st :=
  ⟨[], by simp⟩

theorem outboxOnly_trans {st st1 st2 : ServerState}
    (h1 : OutboxOnly st st1) (h2 : OutboxOnly st1 st2) : OutboxOnly st st2 := by
  rcases h1 with ⟨a, ha⟩
  rcases h2 with ⟨b, hb⟩
  exact ⟨a ++ b, by rw [hb, ha]; simp⟩

theorem send_outboxOnly (st : ServerState) (ws : Nat) (m : SMsg) (d : Bool) :
    OutboxOnly st (send st ws m d) := by
  rcases send_cases st ws m d with h | h
  · rw [h]; exact outboxOnly_refl st
  · exact ⟨[(ws, m)], h⟩

theorem sendToOpt_outboxOnly (st : ServerState) (p? : Option Player) (m : SMsg) :
    OutboxOnly st (sendToOpt st p? m) := by
  cases p? with
  | none => exact outboxOnly_refl st
  | some p => exact send_outboxOnly st p.ws m false

theorem sendToAll_outboxOnly (m : SMsg) :
    ∀ (l : List Nat) (st : ServerState), OutboxOnly st (sendToAll st l m) := by
  intro l
  induction l with
  | nil => exact fun st => outboxOnly_refl st
  | cons w tl ih =>
    intro st
    exact outboxOnly_trans (send_outboxOnly st w m false) (ih _)

/-- `broadcastRoom` only appends messages to the outbox; it never touches
rooms, connections, the `me` table, the coalescing state or the pings. -/
theorem broadcastRoom_outboxOnly (st : ServerState) (roomId : String) :
    OutboxOnly st (broadcastRoom st roomId) := by
  unfold broadcastRoom
  cases hr : getEntry roomId st.rooms with
  | none => exact outboxOnly_refl st
  | some r =>
    exact outboxOnly_trans (sendToOpt_outboxOnly _ _ _)
      (outboxOnly_trans (sendToOpt_outboxOnly _ _ _) (sendToAll_outboxOnly _ _ _))

/-- All sockets of `l` are open in `st`. -/
def AllOpen (st : ServerState) (l : List Nat) : Prop :=
  ∀ w ∈ l, ∃ c, getEntry w st.conns = some c ∧ c.isOpen = true

theorem allOpen_of_outboxOnly {st st' : ServerState} {l : List Nat}
    (hs : OutboxOnly st st') (h : AllOpen st l) : AllOpen st' l := by
  rcases hs with ⟨δ, hδ⟩
  intro w hw
  rcases h w hw with ⟨c, hc, ho⟩
  exact ⟨c, by rw [hδ]; exact hc, ho⟩

theorem sendToAll_open (m : SMsg) :
    ∀ (l : List Nat) (st : ServerState), AllOpen st l →
      sendToAll st l m = { st with outbox := st.outbox ++ l.map (fun w => (w, m)) } := by
  intro l
  induction l with
  | nil => intro st _; simp [sendToAll]
  | cons w tl ih =>
    intro st h
    rcases h w (by simp) with ⟨c, hc, ho⟩
    have hsend := send_open hc ho m
    have htl : AllOpen (send st w m false) tl := by
      apply allOpen_of_outboxOnly (send_outboxOnly st w m false)
      intro x hx
      exact h x (by simp [hx])
    show sendToAll (send st w m false) tl m = _
    rw [ih _ htl, hsend]
    simp

/-- Precise description of `broadcastRoom` when every member's socket is
open: one `roster` message per recipient, in source order, appended to
the outbox, and nothing else changed. -/
theorem broadcastRoom_open {st : ServerState} {roomId : String} {r : Room}
    (hr : getEntry roomId st.rooms = some r)
    (hopen : AllOpen st (roomRecipients r)) :
    broadcastRoom st roomId =
      { st with outbox := st.outbox ++
          (roomRecipients r).map (fun w => (w, SMsg.roster roomId (rosterOf r))) } := by
  unfold broadcastRoom
  rw [hr]
  show sendToAll
      (sendToOpt (sendToOpt st r.A (SMsg.roster roomId (rosterOf r)))
        r.B (SMsg.roster roomId (rosterOf r)))
      r.spectators (SMsg.roster roomId (rosterOf r)) = _
  cases hA : r.A with
  | none =>
    cases hB : r.B with
    | none =>
      have hs : AllOpen st r.spectators := by
        intro w hw
        exact hopen w (by simp [roomRecipients, hA, hB, hw])
      simp only [sendToOpt]
      rw [sendToAll_open _ _ _ hs]
      simp [roomRecipients, hA, hB]
    | some pB =>
      rcases hopen pB.ws (by simp [roomRecipients, hA, hB]) with ⟨c, hc, ho⟩
      have hs : AllOpen ({ st with outbox := st.outbox ++ [(pB.ws, SMsg.roster roomId (rosterOf r))] } : ServerState) r.spectators := by
        intro w hw
        exact hopen w (by simp [roomRecipients, hA, hB, hw])
      simp only [sendToOpt]
      rw [send_open hc ho, sendToAll_open _ _ _ hs]
      simp [roomRecipients, hA, hB]
  | some pA =>
    rcases hopen pA.ws (by simp [roomRecipients, hA]) with ⟨cA, hcA, hoA⟩
    cases hB : r.B with
    | none =>
      have hs : AllOpen ({ st with outbox := st.outbox ++ [(pA.ws, SMsg.roster roomId (rosterOf r))] } : ServerState) r.spectators := by
        intro w hw
        exact hopen w (by simp [roomRecipients, hA, hB, hw])
      simp only [sendToOpt]
      rw [send_open hcA hoA, sendToAll_open _ _ _ hs]
      simp [roomRecipients, hA, hB]
    | some pB =>
      rcases hopen pB.ws (by simp [roomRecipients, hA, hB]) with ⟨cB, hcB, hoB⟩
      have hcB' : getEntry pB.ws ({ st with outbox := st.outbox ++ [(pA.ws, SMsg.roster roomId (rosterOf r))] } : ServerState).conns = some cB := hcB
      have hs : AllOpen ({ st with outbox := st.outbox ++ [(pA.ws, SMsg.roster roomId (rosterOf r)), (pB.ws, SMsg.roster roomId (rosterOf r))] } : ServerState) r.spectators := by
        intro w hw
        exact hopen w (by simp [roomRecipients, hA, hB, hw])
      simp only [sendToOpt]
      rw [send_open hcA hoA, send_open hcB' hoB]
      have hout : ({ st with outbox := st.outbox ++ [(pA.ws, SMsg.roster roomId (rosterOf r))] } : ServerState).outbox ++ [(pB.ws, SMsg.roster roomId (rosterOf r))] = st.outbox ++ [(pA.ws, SMsg.roster roomId (rosterOf r)), (pB.ws, SMsg.roster roomId (rosterOf r))] := by
        simp
      rw [show ({ ({ st with outbox := st.outbox ++ [(pA.ws, SMsg.roster roomId (rosterOf r))] } : ServerState) with outbox := ({ st with outbox := st.outbox ++ [(pA.ws, SMsg.roster roomId (rosterOf r))] } : ServerState).outbox ++ [(pB.ws, SMsg.roster roomId (rosterOf r))] } : ServerState) = { st with outbox := st.outbox ++ [(pA.ws, SMsg.roster roomId (rosterOf r)), (pB.ws, SMsg.roster roomId (rosterOf r))] } from by simp]
      rw [sendToAll_open _ _ _ hs]
      simp [roomRecipients, hA, hB]

/-! ## Coalescing lemmas -/

theorem push_eq (st : ServerState) (sock : Nat) (p : ZonesPayload) :
    push st sock p =
      if sock ∈ st.ticking
      then { st with latest := setEntry sock p st.latest }
      else { st with latest := setEntry sock p st.latest,
                     ticking := st.ticking ++ [sock] } := by
  unfold push scheduleFlush
  by_cases h : sock ∈ st.ticking <;> simp [h]

/-- Pushing twice to the same destination is the same as pushing only the
second payload: the slot is overwritten, nothing is queued. -/
theorem push_push (st : ServerState) (sock : Nat) (p q : ZonesPayload) :
    push (push st sock p) sock q = push st sock q := by
  by_cases h : sock ∈ st.ticking <;>
    simp [push_eq, h, setEntry_setEntry]

/-- A burst of pushes to one destination, oldest first. -/
def pushAll (st : ServerState) (sock : Nat) (ps : List ZonesPayload) :
    ServerState :=
  ps.foldl (fun s p => push s sock p) st

theorem pushAll_append_last (sock : Nat) (p : ZonesPayload) :
    ∀ (ps : List ZonesPayload) (st : ServerState),
      pushAll st sock (ps ++ [p]) = push st sock p := by
  intro ps
  induction ps with
  | nil => intro st; rfl
  | cons q tl ih =>
    intro st
    show pushAll (push st sock q) sock (tl ++ [p]) = _
    rw [ih, push_push]

theorem flush_empty {st : ServerState} {dest : Nat}
    (h : getEntry dest st.latest = none) :
    flush st dest = { st with ticking := st.ticking.erase dest } := by
  unfold flush
  simp only []
  rw [show getEntry dest ({ st with ticking := st.ticking.erase dest } : ServerState).latest = none from h]

theorem flush_send {st : ServerState} {dest : Nat} {p : ZonesPayload} {c : ConnInfo}
    (hp : getEntry dest st.latest = some p)
    (hc : getEntry dest st.conns = some c) (ho : c.isOpen = true)
    (hb : c.buffered ≤ bufferThreshold) :
    flush st dest =
      { st with ticking := st.ticking.erase dest,
                outbox := st.outbox ++ [(dest, SMsg.zones p.fromSeat p.zones p.seq)],
                latest := removeEntry dest st.latest } := by
  have hc1 : getEntry dest ({ st with ticking := st.ticking.erase dest } : ServerState).conns = some c := hc
  unfold flush
  simp [hp, send_drop_ok hc1 ho hb]

theorem flush_congested {st : ServerState} {dest : Nat} {p : ZonesPayload} {c : ConnInfo}
    (hp : getEntry dest st.latest = some p)
    (hc : getEntry dest st.conns = some c) (ho : c.isOpen = true)
    (hb : bufferThreshold < c.buffered) :
    flush st dest =
      { st with ticking := st.ticking.erase dest,
                latest := removeEntry dest st.latest } := by
  have hc1 : getEntry dest ({ st with ticking := st.ticking.erase dest } : ServerState).conns = some c := hc
  unfold flush
  simp [hp, send_congested hc1 ho hb]

/-! ## Join-handler reduction lemmas -/

theorem handleJoin_rejected {st : ServerState} {ws : Nat}
    {rawRoom rawSeat rawName fresh : String} {room : Room} {reason : String}
    (hne : ¬jsTrim rawRoom = "")
    (hr : getEntry (jsTrim rawRoom) st.rooms = some room)
    (hsa : seatAssign (jsToUpperCase rawSeat) room = .rejected reason) :
    handleJoin st ws rawRoom rawSeat rawName fresh =
      send st ws (.error reason) false := by
  unfold handleJoin
  simp [hne, hr, hsa, setEntry_self hr]

theorem handleJoin_seated {st : ServerState} {ws : Nat}
    {rawRoom rawSeat rawName fresh : String} {s : Seat}
    (hne : ¬jsTrim rawRoom = "")
    (hsa : seatAssign (jsToUpperCase rawSeat)
      ((getEntry (jsTrim rawRoom) st.rooms).getD {}) = .seated s) :
    handleJoin st ws rawRoom rawSeat rawName fresh =
      broadcastRoom
        (send { st with
            rooms := setEntry (jsTrim rawRoom)
              (((getEntry (jsTrim rawRoom) st.rooms).getD {}).set s
                (some ⟨"Player-" ++ fresh, ws, jsTrim rawRoom, s, normalizeName rawName, true⟩))
              st.rooms,
            me := setEntry ws
              ⟨"Player-" ++ fresh, ws, jsTrim rawRoom, s, normalizeName rawName, true⟩ st.me }
          ws (.joined (jsTrim rawRoom) ("Player-" ++ fresh) (some s) (normalizeName rawName)) false)
        (jsTrim rawRoom) := by
  unfold handleJoin
  simp [hne, hsa, setEntry_setEntry]

theorem handleJoin_spectator {st : ServerState} {ws : Nat}
    {rawRoom rawSeat rawName fresh : String}
    (hne : ¬jsTrim rawRoom = "")
    (hsa : seatAssign (jsToUpperCase rawSeat)
      ((getEntry (jsTrim rawRoom) st.rooms).getD {}) = .spectator) :
    handleJoin st ws rawRoom rawSeat rawName fresh =
      broadcastRoom
        (send { st with
            rooms := setEntry (jsTrim rawRoom)
              { (getEntry (jsTrim rawRoom) st.rooms).getD {} with
                spectators :=
                  if ws ∈ ((getEntry (jsTrim rawRoom) st.rooms).getD {}).spectators
                  then ((getEntry (jsTrim rawRoom) st.rooms).getD {}).spectators
                  else ((getEntry (jsTrim rawRoom) st.rooms).getD {}).spectators ++ [ws] }
              st.rooms }
          ws (.joined (jsTrim rawRoom) ("Spectator-" ++ fresh) none (normalizeName rawName)) false)
        (jsTrim rawRoom) := by
  unfold handleJoin
  simp [hne, hsa, setEntry_setEntry]

/-! ## Concrete states used by the claims -/

/-- A fresh room `"r"` with three open connections about to join. -/
def autoSt : ServerState :=
  { rooms := [("r", {})], conns := [(1, {}), (2, {}), (3, {})] }

/-- Three successive AUTO joins on the fresh room. -/
def autoEvents : List Event :=
  [.evJoin 1 "r" "AUTO" "P1" "f1", .evJoin 2 "r" "AUTO" "P2" "f2",
   .evJoin 3 "r" "AUTO" "P3" "f3"]

/-- The `joined` replies of a trace, in order. -/
def joinReplies (l : List (Nat × SMsg)) : List (Nat × SMsg) :=
  l.filter fun e => match e.2 with | .joined _ _ _ _ => true | _ => false

/-- A player occupying seat A of room `"r"` on connection 1. -/
def cexPlayerA : Player := ⟨"Player-p1", 1, "r", .A, "P1", true⟩

/-- Room `"r"` with seat A occupied; connection 2 is about to ask for
seat A explicitly. -/
def cexSt : ServerState :=
  { rooms := [("r", { A := some cexPlayerA })], conns := [(1, {}), (2, {})] }

/-! ## C1 -/

/-- **C1, counterexample.**  On a room whose seat A is occupied, an
explicit join request for seat A is answered with an `error` envelope
whose reason is the string `Seat A is occupied`, which is not the literal
reason `seat occupied` stated in the claim. -/
theorem seat_occupied_reason_cex :
    (handleJoin cexSt 2 "r" "A" "P2" "f2").outbox =
      [(2, SMsg.error "Seat A is occupied")]
    ∧ SMsg.error "Seat A is occupied" ≠ SMsg.error "seat occupied" := by
  constructor
  · decide
  · decide

/-- **C1 (amended).**  Seat assignment is a deterministic function of the
requested seat and the room's current occupancy: an explicit request for
seat A or B succeeds if and only if that seat is free, and otherwise
fails with reason `Seat A is occupied` resp. `Seat B is occupied`; AUTO
picks seat A if free, else seat B if free, else falls back to spectator;
SPECTATOR or any unrecognized value always succeeds as spectator; and on
a fresh room three successive AUTO joins are assigned seat A, seat B, and
the spectator role, in that order. -/
theorem seat_assignment_spec :
    (∀ room : Room, seatAssign "A" room =
        if (room.get .A).isSome then .rejected "Seat A is occupied" else .seated .A)
  ∧ (∀ room : Room, seatAssign "B" room =
        if (room.get .B).isSome then .rejected "Seat B is occupied" else .seated .B)
  ∧ (∀ room : Room, seatAssign "AUTO" room =
        if room.A.isNone then .seated .A
        else if room.B.isNone then .seated .B
        else .spectator)
  ∧ (∀ (req : String) (room : Room), ¬req = "A" → ¬req = "B" → ¬req = "AUTO" →
        seatAssign req room = .spectator)
  ∧ joinReplies (applyEvents autoSt autoEvents).outbox =
      [(1, .joined "r" "Player-f1" (some .A) "P1"),
       (2, .joined "r" "Player-f2" (some .B) "P2"),
       (3, .joined "r" "Spectator-f3" none "P3")] := by
  refine ⟨?_, ?_, ?_, ?_, ?_⟩
  · intro room
    by_cases h : (room.get Seat.A).isSome <;> simp [seatAssign, Seat.str, h]
  · intro room
    by_cases h : (room.get Seat.B).isSome <;> simp [seatAssign, Seat.str, h]
  · intro room
    simp [seatAssign, pickAuto]
  · intro req room h1 h2 h3
    simp [seatAssign, h1, h2, h3]
  · decide

/-- Witness for the hypothesis-bearing conjunct of `seat_assignment_spec`. -/
theorem seat_assignment_spec_witness :
    seatAssign "SPECTATOR" {} = .spectator ∧ seatAssign "xyz" {} = .spectator :=
  ⟨seat_assignment_spec.2.2.2.1 "SPECTATOR" {} (by decide) (by decide) (by decide),
   seat_assignment_spec.2.2.2.1 "xyz" {} (by decide) (by decide) (by decide)⟩

/-! ## C10 -/

/-- **C10.**  The requested seat string is uppercased before matching, so
any request string behaves exactly like its uppercased form; in
particular the lowercase or mixed-case forms of `a`, `b`, `auto` and
`spectator` behave like their uppercase forms, and a request for seat
`"a"` claims seat A when it is free and is rejected when it is occupied,
rather than falling back to spectator. -/
theorem join_seat_case_insensitive :
    (∀ (st : ServerState) (ws : Nat) (rawRoom rawSeat rawName fresh : String),
        handleJoin st ws rawRoom rawSeat rawName fresh =
          handleJoin st ws rawRoom (jsToUpperCase rawSeat) rawName fresh)
  ∧ (∀ room : Room,
        seatAssign (jsToUpperCase "a") room = seatAssign "A" room
      ∧ seatAssign (jsToUpperCase "b") room = seatAssign "B" room
      ∧ seatAssign (jsToUpperCase "auto") room = seatAssign "AUTO" room
      ∧ seatAssign (jsToUpperCase "aUtO") room = seatAssign "AUTO" room
      ∧ seatAssign (jsToUpperCase "spectator") room = seatAssign "SPECTATOR" room)
  ∧ (∀ room : Room, room.A = none →
        seatAssign (jsToUpperCase "a") room = .seated .A)
  ∧ (∀ room : Room, (room.get .A).isSome →
        seatAssign (jsToUpperCase "a") room = .rejected "Seat A is occupied") := by
  refine ⟨?_, ?_, ?_, ?_⟩
  · intro st ws rawRoom rawSeat rawName fresh
    simp only [handleJoin, jsToUpperCase_idem]
  · intro room
    refine ⟨?_, ?_, ?_, ?_, ?_⟩ <;>
      rw [show ∀ s : String, jsToUpperCase s = jsToUpperCase s from fun _ => rfl] <;>
      first
      | rw [show jsToUpperCase "a" = "A" from by decide]
      | rw [show jsToUpperCase "b" = "B" from by decide]
      | rw [show jsToUpperCase "auto" = "AUTO" from by decide]
      | rw [show jsToUpperCase "aUtO" = "AUTO" from by decide]
      | rw [show jsToUpperCase "spectator" = "SPECTATOR" from by decide]
  · intro room h
    rw [show jsToUpperCase "a" = "A" from by decide]
    simp [seatAssign, Room.get, h]
  · intro room h
    rw [show jsToUpperCase "a" = "A" from by decide]
    simp [seatAssign, Seat.str, h]

/-- Witness for `join_seat_case_insensitive`. -/
theorem join_seat_case_insensitive_witness :
    seatAssign (jsToUpperCase "a") {} = .seated .A
    ∧ seatAssign (jsToUpperCase "a") { A := some cexPlayerA } =
        .rejected "Seat A is occupied" :=
  ⟨join_seat_case_insensitive.2.2.1 {} rfl,
   join_seat_case_insensitive.2.2.2 { A := some cexPlayerA } (by decide)⟩

/-! ## C4 -/

theorem outboxOnly_fields {st st' : ServerState} (h : OutboxOnly st st') :
    st'.rooms = st.rooms ∧ st'.conns = st.conns ∧ st'.me = st.me
    ∧ st'.latest = st.latest ∧ st'.ticking = st.ticking ∧ st'.pings = st.pings := by
  rcases h with ⟨δ, rfl⟩
  exact ⟨rfl, rfl, rfl, rfl, rfl, rfl⟩

/-- **C4.**  A join request for an explicitly named seat that is already
occupied is answered with an `error` envelope and nothing else: the room
registry, the `me` table, the coalescing state and the ping trace are
unchanged, and the only message produced is the error reply — in
particular no roster broadcast happens. -/
theorem occupied_join_no_mutation :
    ∀ (st : ServerState) (ws : Nat) (rawRoom rawSeat rawName fresh : String)
      (room : Room) (s : Seat) (c : ConnInfo),
      ¬jsTrim rawRoom = "" →
      getEntry (jsTrim rawRoom) st.rooms = some room →
      jsToUpperCase rawSeat = s.str →
      (room.get s).isSome →
      getEntry ws st.conns = some c → c.isOpen = true →
      handleJoin st ws rawRoom rawSeat rawName fresh =
        { st with outbox :=
            st.outbox ++ [(ws, SMsg.error ("Seat " ++ s.str ++ " is occupied"))] } := by
  intro st ws rawRoom rawSeat rawName fresh room s c hne hr hseat hocc hc ho
  have hsa : seatAssign (jsToUpperCase rawSeat) room =
      .rejected ("Seat " ++ s.str ++ " is occupied") := by
    rw [hseat]
    cases s <;> simp [seatAssign, Seat.str, hocc]
  rw [handleJoin_rejected hne hr hsa, send_open hc ho]

/-- Witness for `occupied_join_no_mutation`: the concrete occupied-seat
join of `cexSt`. -/
theorem occupied_join_no_mutation_witness :
    handleJoin cexSt 2 "r" "A" "P2" "f2" =
      { cexSt with outbox :=
          cexSt.outbox ++ [(2, SMsg.error ("Seat " ++ Seat.str .A ++ " is occupied"))] } :=
  occupied_join_no_mutation cexSt 2 "r" "A" "P2" "f2" { A := some cexPlayerA } .A {}
    (by decide) (by decide) (by decide) (by decide) (by decide) (by decide)

/-! ## C8 -/

theorem seatAssign_empty_not_rejected :
    ∀ (req reason : String), seatAssign req {} ≠ JoinOutcome.rejected reason := by
  intro req reason
  by_cases h1 : req = "A" ∨ req = "B"
  · have hget : (Room.get {} (if req = "A" then Seat.A else Seat.B)).isSome = false := by
      by_cases h : req = "A" <;> simp [Room.get, h]
    simp [seatAssign, h1, hget]
  · by_cases h2 : req = "AUTO" <;> simp [seatAssign, h1, h2, pickAuto]

/-- **C8.**  A join request naming a nonempty room id that is absent from
the registry creates a room under that id and proceeds with seat
assignment in the (empty) new room; seat assignment on an empty room can
never reject, so no error reply is possible. -/
theorem join_unknown_room_creates :
    ∀ (st : ServerState) (ws : Nat) (rawRoom rawSeat rawName fresh : String),
      ¬jsTrim rawRoom = "" →
      getEntry (jsTrim rawRoom) st.rooms = none →
      (getEntry (jsTrim rawRoom)
          (handleJoin st ws rawRoom rawSeat rawName fresh).rooms).isSome = true
      ∧ ∀ reason : String,
          seatAssign (jsToUpperCase rawSeat) {} ≠ .rejected reason := by
  intro st ws rawRoom rawSeat rawName fresh hne hnone
  refine ⟨?_, fun reason => seatAssign_empty_not_rejected _ reason⟩
  have hgetD : (getEntry (jsTrim rawRoom) st.rooms).getD {} = {} := by
    rw [hnone]
    rfl
  cases hsa : seatAssign (jsToUpperCase rawSeat)
      ((getEntry (jsTrim rawRoom) st.rooms).getD {}) with
  | rejected reason =>
    rw [hgetD] at hsa
    exact absurd hsa (seatAssign_empty_not_rejected _ _)
  | seated s =>
    rw [handleJoin_seated hne hsa,
      (outboxOnly_fields (broadcastRoom_outboxOnly _ _)).1,
      (outboxOnly_fields (send_outboxOnly _ _ _ _)).1]
    show (getEntry (jsTrim rawRoom) (setEntry (jsTrim rawRoom) _ st.rooms)).isSome = true
    rw [getEntry_setEntry]
    simp
  | spectator =>
    rw [handleJoin_spectator hne hsa,
      (outboxOnly_fields (broadcastRoom_outboxOnly _ _)).1,
      (outboxOnly_fields (send_outboxOnly _ _ _ _)).1]
    show (getEntry (jsTrim rawRoom) (setEntry (jsTrim rawRoom) _ st.rooms)).isSome = true
    rw [getEntry_setEntry]
    simp

/-- Witness for `join_unknown_room_creates`: a join to the unknown room
id `newroom` on a registry with no rooms. -/
theorem join_unknown_room_creates_witness :
    (getEntry (jsTrim "newroom")
        (handleJoin { conns := [(1, {})] } 1 "newroom" "AUTO" "P1" "f1").rooms).isSome = true
    ∧ seatAssign (jsToUpperCase "AUTO") {} ≠ .rejected "seat occupied" :=
  ⟨(join_unknown_room_creates { conns := [(1, {})] } 1 "newroom" "AUTO" "P1" "f1"
      (by decide) (by decide)).1,
   (join_unknown_room_creates { conns := [(1, {})] } 1 "newroom" "AUTO" "P1" "f1"
      (by decide) (by decide)).2 "seat occupied"⟩

/-! ## C2 -/

theorem push_fields (st : ServerState) (sock : Nat) (p : ZonesPayload) :
    (push st sock p).rooms = st.rooms ∧ (push st sock p).conns = st.conns
    ∧ (push st sock p).me = st.me ∧ (push st sock p).outbox = st.outbox
    ∧ (push st sock p).pings = st.pings := by
  rw [push_eq]
  by_cases h : sock ∈ st.ticking <;> simp [h]

theorem push_latest_self (st : ServerState) (sock : Nat) (p : ZonesPayload) :
    getEntry sock (push st sock p).latest = some p := by
  rw [push_eq]
  by_cases h : sock ∈ st.ticking <;> simp [h, getEntry_setEntry]

/-- The zones handler with `me` set and the room found reduces to the
body of lines 138-149. -/
theorem handleZones_seated {st : ServerState} {ws : Nat} {z : Nat}
    {seq : Option Nat} {mp : Player} {room : Room}
    (hme : getEntry ws st.me = some mp)
    (hroom : getEntry mp.room st.rooms = some room) :
    handleZones st ws z seq =
      room.spectators.foldl (fun s w => push s w ⟨mp.seat, z, seq⟩)
        (match room.get mp.seat.other with
         | some other => push st other.ws ⟨mp.seat, z, seq⟩
         | none => st) := by
  unfold handleZones
  rw [hme]
  show (match getEntry mp.room st.rooms with
        | none => st
        | some room =>
          List.foldl (fun s w => push s w ⟨mp.seat, z, seq⟩)
            (match room.get mp.seat.other with
             | some other => push st other.ws ⟨mp.seat, z, seq⟩
             | none => st) room.spectators) = _
  rw [hroom]

/-- A burst of inbound `zones` frames from one connection, oldest
first. -/
def zonesBurst (st : ServerState) (ws : Nat) :
    List (Nat × Option Nat) → ServerState
  | [] => st
  | (z, seq) :: rest => zonesBurst (handleZones st ws z seq) ws rest

/-- With a seated sender, a present opposite occupant and no spectators,
a burst of zones frames is exactly a burst of pushes to the opposite
occupant's socket. -/
theorem zonesBurst_eq_pushAll {mp : Player} {room : Room} {op : Player}
    (w1 : Nat) (hother : room.get mp.seat.other = some op)
    (hspec : room.spectators = []) :
    ∀ (zs : List (Nat × Option Nat)) (st : ServerState),
      getEntry w1 st.me = some mp →
      getEntry mp.room st.rooms = some room →
      zonesBurst st w1 zs =
        pushAll st op.ws (zs.map fun zp => ⟨mp.seat, zp.1, zp.2⟩) := by
  intro zs
  induction zs with
  | nil => intro st _ _; rfl
  | cons hd tl ih =>
    intro st hme hroom
    obtain ⟨z, seq⟩ := hd
    have hstep : handleZones st w1 z seq = push st op.ws ⟨mp.seat, z, seq⟩ := by
      rw [handleZones_seated hme hroom, hspec, hother]
      rfl
    show zonesBurst (handleZones st w1 z seq) w1 tl = _
    rw [hstep]
    have hme' : getEntry w1 (push st op.ws ⟨mp.seat, z, seq⟩).me = some mp := by
      rw [(push_fields st op.ws _).2.2.1]
      exact hme
    have hroom' : getEntry mp.room (push st op.ws ⟨mp.seat, z, seq⟩).rooms = some room := by
      rw [(push_fields st op.ws _).1]
      exact hroom
    rw [ih _ hme' hroom']
    rfl

/-- The length of a flush interval in milliseconds (line 72, `33`,
i.e. a ~30 updates per second ceiling). -/
def flushIntervalMs : Nat := 33

/-- **C2.**  Pushes into the coalescing scheduler overwrite the single
pending slot unconditionally (older unsent payloads are discarded, never
queued), so a burst of pushes within one flush window equals pushing
only the last payload; a flush timer is armed only when none is pending
for that destination; and a burst of ten zones frames from seat A
followed by the single flush for seat B's socket delivers exactly one
zones message to seat B, carrying the last payload. -/
theorem zones_coalescing_latest_wins :
    flushIntervalMs = 33
  ∧ (∀ (st : ServerState) (sock : Nat) (p q : ZonesPayload),
       push (push st sock p) sock q = push st sock q)
  ∧ (∀ (sock : Nat) (p : ZonesPayload) (ps : List ZonesPayload) (st : ServerState),
       pushAll st sock (ps ++ [p]) = push st sock p)
  ∧ (∀ (st : ServerState) (sock : Nat) (p : ZonesPayload),
       sock ∈ st.ticking → (push st sock p).ticking = st.ticking)
  ∧ (∀ (st : ServerState) (sock : Nat) (p : ZonesPayload),
       sock ∉ st.ticking → (push st sock p).ticking = st.ticking ++ [sock])
  ∧ (∀ (st : ServerState) (w1 : Nat) (mp : Player) (room : Room) (op : Player)
       (c : ConnInfo) (zs : List (Nat × Option Nat)) (z0 : Nat) (s0 : Option Nat),
       getEntry w1 st.me = some mp →
       getEntry mp.room st.rooms = some room →
       room.get mp.seat.other = some op →
       room.spectators = [] →
       getEntry op.ws st.conns = some c → c.isOpen = true →
       c.buffered ≤ bufferThreshold →
       (flush (zonesBurst st w1 (zs ++ [(z0, s0)])) op.ws).outbox =
         st.outbox ++ [(op.ws, SMsg.zones mp.seat z0 s0)]) := by
  refine ⟨rfl, push_push, pushAll_append_last, ?_, ?_, ?_⟩
  · intro st sock p h
    rw [push_eq]
    simp [h]
  · intro st sock p h
    rw [push_eq]
    simp [h]
  · intro st w1 mp room op c zs z0 s0 hme hroom hother hspec hc ho hb
    rw [zonesBurst_eq_pushAll w1 hother hspec _ st hme hroom]
    have hmap : (zs ++ [(z0, s0)]).map
        (fun zp => (⟨mp.seat, zp.1, zp.2⟩ : ZonesPayload)) =
        zs.map (fun zp => ⟨mp.seat, zp.1, zp.2⟩) ++ [⟨mp.seat, z0, s0⟩] := by
      simp
    rw [hmap, pushAll_append_last]
    have hlast := push_latest_self st op.ws ⟨mp.seat, z0, s0⟩
    have hc' : getEntry op.ws (push st op.ws ⟨mp.seat, z0, s0⟩).conns = some c := by
      rw [(push_fields st op.ws _).2.1]
      exact hc
    rw [flush_send hlast hc' ho hb]
    show (push st op.ws ⟨mp.seat, z0, s0⟩).outbox ++ _ = _
    rw [(push_fields st op.ws _).2.2.2.1]

/-- Concrete zones-burst scenario: seat A on connection 1, seat B on
connection 2, no spectators. -/
def zP1 : Player := ⟨"Player-z1", 1, "zr", .A, "Z1", true⟩

def zP2 : Player := ⟨"Player-z2", 2, "zr", .B, "Z2", true⟩

def zSt : ServerState :=
  { rooms := [("zr", { A := some zP1, B := some zP2 })],
    conns := [(1, {}), (2, {})],
    me := [(1, zP1), (2, zP2)] }

/-- The first nine of ten zones payloads sent within one flush window. -/
def zFirstNine : List (Nat × Option Nat) :=
  [(1, some 1), (2, some 2), (3, some 3), (4, some 4), (5, some 5),
   (6, some 6), (7, some 7), (8, some 8), (9, some 9)]

/-- Witness for `zones_coalescing_latest_wins`: ten zones frames from
seat A within one window, one flush; seat B receives exactly the tenth
payload. -/
theorem zones_coalescing_latest_wins_witness :
    (flush (zonesBurst zSt 1 (zFirstNine ++ [(10, some 10)])) zP2.ws).outbox =
      zSt.outbox ++ [(zP2.ws, SMsg.zones zP1.seat 10 (some 10))] :=
  zones_coalescing_latest_wins.2.2.2.2.2 zSt 1 zP1
    { A := some zP1, B := some zP2 } zP2 {} zFirstNine 10 (some 10)
    (by decide) (by decide) (by decide) (by decide) (by decide) (by decide)
    (by decide)

/-! ## C3 -/

/-- The coalescing state holds at most one pending payload per
destination connection. -/
def OnePendingPerDest (st : ServerState) : Prop :=
  (st.latest.map Prod.fst).Nodup

theorem flush_latest_cases (st : ServerState) (dest : Nat) :
    (flush st dest).latest = st.latest
    ∨ (flush st dest).latest = removeEntry dest st.latest := by
  cases hl : getEntry dest st.latest with
  | none =>
    left
    rw [flush_empty hl]
  | some p =>
    right
    rcases send_cases ({ st with ticking := st.ticking.erase dest } : ServerState)
      dest (SMsg.zones p.fromSeat p.zones p.seq) true with h | h <;>
      · unfold flush
        simp [hl, h]

/-- **C3.**  On each flush for a destination: if the pending slot is
empty nothing is sent and the slot stays empty; otherwise, on an open
uncongested socket the payload is sent and the slot cleared; when the
outbound buffer exceeds the threshold the send is skipped entirely for
this flush (the outbox does not grow, no error is raised — the handler is
a total function) while the slot is still cleared, so the next
successful flush carries whatever payload is latest by then; and in all
cases the scheduler keeps at most one pending payload per destination. -/
theorem flush_behavior :
    (∀ (st : ServerState) (dest : Nat), getEntry dest st.latest = none →
       flush st dest = { st with ticking := st.ticking.erase dest })
  ∧ (∀ (st : ServerState) (dest : Nat) (p : ZonesPayload) (c : ConnInfo),
       getEntry dest st.latest = some p →
       getEntry dest st.conns = some c → c.isOpen = true →
       c.buffered ≤ bufferThreshold →
       flush st dest =
         { st with ticking := st.ticking.erase dest,
                   outbox := st.outbox ++ [(dest, SMsg.zones p.fromSeat p.zones p.seq)],
                   latest := removeEntry dest st.latest })
  ∧ (∀ (st : ServerState) (dest : Nat) (p : ZonesPayload) (c : ConnInfo),
       getEntry dest st.latest = some p →
       getEntry dest st.conns = some c → c.isOpen = true →
       bufferThreshold < c.buffered →
       flush st dest =
         { st with ticking := st.ticking.erase dest,
                   latest := removeEntry dest st.latest })
  ∧ (∀ (st : ServerState) (dest : Nat),
       OnePendingPerDest st → OnePendingPerDest (flush st dest))
  ∧ (∀ (st : ServerState) (sock : Nat) (p : ZonesPayload),
       OnePendingPerDest st → OnePendingPerDest (push st sock p)) := by
  refine ⟨?_, ?_, ?_, ?_, ?_⟩
  · intro st dest h
    exact flush_empty h
  · intro st dest p c hp hc ho hb
    exact flush_send hp hc ho hb
  · intro st dest p c hp hc ho hb
    exact flush_congested hp hc ho hb
  · intro st dest h
    rcases flush_latest_cases st dest with hl | hl <;> unfold OnePendingPerDest <;> rw [hl]
    · exact h
    · exact h.sublist ((removeEntry_sublist dest st.latest).map Prod.fst)
  · intro st sock p h
    unfold OnePendingPerDest
    rw [push_eq]
    by_cases hm : sock ∈ st.ticking <;> simp [hm] <;> exact setEntry_keys_nodup sock p h

/-- Witness for `flush_behavior`: a congested destination (buffer above
the threshold) has its flush skipped with the slot cleared, and an
uncongested one receives the payload. -/
theorem flush_behavior_witness :
    flush { latest := [(7, ⟨Seat.A, 5, none⟩)],
            conns := [(7, { buffered := 300000 })], ticking := [7] } 7 =
      { latest := [], conns := [(7, { buffered := 300000 })], ticking := [] }
    ∧ flush { latest := [(7, ⟨Seat.A, 5, none⟩)], conns := [(7, {})],
              ticking := [7] } 7 =
      { latest := [], conns := [(7, {})], ticking := [],
        outbox := [(7, SMsg.zones Seat.A 5 none)] } := by
  constructor
  · rw [flush_behavior.2.2.1 _ 7 ⟨Seat.A, 5, none⟩ { buffered := 300000 }
      (by decide) (by decide) (by decide) (by decide)]
    decide
  · rw [flush_behavior.2.1 _ 7 ⟨Seat.A, 5, none⟩ {}
      (by decide) (by decide) (by decide) (by decide)]
    decide

/-! ## C5 -/

/-- `st'`'s outbox extends `st`'s: everything already sent stays, new
messages are only appended (so message order follows event order). -/
def OutboxPrefix (st st' : ServerState) : Prop :=
  ∃ δ, st'.outbox = st.outbox ++ δ

theorem outboxPrefix_of_only {st st' : ServerState} (h : OutboxOnly st st') :
    OutboxPrefix st st' := by
  rcases h with ⟨δ, rfl⟩
  exact ⟨δ, rfl⟩

theorem outboxPrefix_refl (st : ServerState) : OutboxPrefix st st :=
  ⟨[], by simp⟩

theorem outboxPrefix_trans {st st1 st2 : ServerState}
    (h1 : OutboxPrefix st st1) (h2 : OutboxPrefix st1 st2) : OutboxPrefix st st2 := by
  rcases h1 with ⟨a, ha⟩
  rcases h2 with ⟨b, hb⟩
  exact ⟨a ++ b, by rw [hb, ha, List.append_assoc]⟩

theorem foldl_push_outbox (p : ZonesPayload) :
    ∀ (l : List Nat) (st : ServerState),
      (l.foldl (fun s x => push s x p) st).outbox = st.outbox := by
  intro l
  induction l with
  | nil => intro st; rfl
  | cons x tl ih =>
    intro st
    show (tl.foldl (fun s x => push s x p) (push st x p)).outbox = _
    rw [ih, (push_fields st x p).2.2.2.1]

theorem handleZones_outbox (st : ServerState) (ws z : Nat) (seq : Option Nat) :
    (handleZones st ws z seq).outbox = st.outbox := by
  cases hme : getEntry ws st.me with
  | none =>
    unfold handleZones
    rw [hme]
  | some mp =>
    cases hroom : getEntry mp.room st.rooms with
    | none =>
      unfold handleZones
      rw [hme]
      show (match getEntry mp.room st.rooms with
            | none => st
            | some room =>
              List.foldl (fun s w => push s w ⟨mp.seat, z, seq⟩)
                (match room.get mp.seat.other with
                 | some other => push st other.ws ⟨mp.seat, z, seq⟩
                 | none => st) room.spectators).outbox = _
      rw [hroom]
    | some room =>
      rw [handleZones_seated hme hroom, foldl_push_outbox]
      cases hop : room.get mp.seat.other with
      | none => rfl
      | some op => exact (push_fields st op.ws _).2.2.2.1

theorem markClosed_outbox (st : ServerState) (ws : Nat) :
    (markClosed st ws).outbox = st.outbox := by
  unfold markClosed
  cases getEntry ws st.conns <;> rfl

/-- Reduction of the close handler for a connection with no `me` record
and no spectator membership. -/
theorem handleClose_none {st : ServerState} {ws : Nat}
    (hme : getEntry ws st.me = none)
    (hscan : closeSpectatorScan ws st.rooms = none) :
    handleClose st ws = st := by
  unfold handleClose
  rw [hme, hscan]

/-- Reduction of the close handler for a spectator connection. -/
theorem handleClose_spectator {st : ServerState} {ws : Nat}
    {rid : String} {rooms' : List (String × Room)}
    (hme : getEntry ws st.me = none)
    (hscan : closeSpectatorScan ws st.rooms = some (rid, rooms')) :
    handleClose st ws = broadcastRoom { st with rooms := rooms' } rid := by
  unfold handleClose
  rw [hme, hscan]

/-- Reduction of the close handler for a seated connection whose room is
still registered (lines 165-169). -/
theorem handleClose_seated {st : ServerState} {ws : Nat} {mp : Player}
    {room : Room}
    (hme : getEntry ws st.me = some mp)
    (hroom : getEntry mp.room st.rooms = some room) :
    handleClose st ws =
      broadcastRoom
        { st with rooms := setEntry mp.room (closeRoomUpdate mp room) st.rooms }
        mp.room := by
  unfold handleClose
  rw [hme]
  show (match getEntry mp.room st.rooms with
        | none => st
        | some room =>
          broadcastRoom
            { st with rooms := setEntry mp.room (closeRoomUpdate mp room) st.rooms }
            mp.room) = _
  rw [hroom]

/-- Reduction of the close handler for a seated connection whose room is
gone. -/
theorem handleClose_seated_noroom {st : ServerState} {ws : Nat} {mp : Player}
    (hme : getEntry ws st.me = some mp)
    (hroom : getEntry mp.room st.rooms = none) :
    handleClose st ws = st := by
  unfold handleClose
  rw [hme]
  show (match getEntry mp.room st.rooms with
        | none => st
        | some room =>
          broadcastRoom
            { st with rooms := setEntry mp.room (closeRoomUpdate mp room) st.rooms }
            mp.room) = _
  rw [hroom]

/-- Broadcasting from a state with `st`'s outbox only appends. -/
theorem outboxPrefix_broadcast_of (st X : ServerState)
    (hX : X.outbox = st.outbox) (rid : String) :
    OutboxPrefix st (broadcastRoom X rid) := by
  rcases broadcastRoom_outboxOnly X rid with ⟨δ, hδ⟩
  refine ⟨δ, ?_⟩
  rw [hδ]
  show X.outbox ++ δ = st.outbox ++ δ
  rw [hX]

theorem handleClose_outboxPrefix (st : ServerState) (ws : Nat) :
    OutboxPrefix st (handleClose st ws) := by
  cases hme : getEntry ws st.me with
  | none =>
    cases hscan : closeSpectatorScan ws st.rooms with
    | none =>
      rw [handleClose_none hme hscan]
      exact outboxPrefix_refl st
    | some hit =>
      obtain ⟨rid, rooms'⟩ := hit
      rw [handleClose_spectator hme hscan]
      apply outboxPrefix_broadcast_of
      rfl
  | some mp =>
    cases hroom : getEntry mp.room st.rooms with
    | none =>
      rw [handleClose_seated_noroom hme hroom]
      exact outboxPrefix_refl st
    | some room =>
      rw [handleClose_seated hme hroom]
      apply outboxPrefix_broadcast_of
      rfl

theorem closeConn_outboxPrefix (st : ServerState) (ws : Nat) :
    OutboxPrefix st (closeConn st ws) := by
  unfold closeConn
  rcases handleClose_outboxPrefix (markClosed st ws) ws with ⟨δ, hδ⟩
  exact ⟨δ, by rw [hδ, markClosed_outbox]⟩

/-- Broadcasting after a send from a state that has `st`'s outbox only
appends messages. -/
theorem outboxPrefix_broadcast_send (st X : ServerState)
    (hX : X.outbox = st.outbox) (ws : Nat) (m : SMsg) (d : Bool) (rid : String) :
    OutboxPrefix st (broadcastRoom (send X ws m d) rid) := by
  have p1 : OutboxPrefix st (send X ws m d) := by
    rcases send_cases X ws m d with h | h
    · exact ⟨[], by rw [h, hX, List.append_nil]⟩
    · refine ⟨[(ws, m)], ?_⟩
      rw [h]
      show X.outbox ++ [(ws, m)] = st.outbox ++ [(ws, m)]
      rw [hX]
  exact outboxPrefix_trans p1 (outboxPrefix_of_only (broadcastRoom_outboxOnly _ _))

theorem handleJoin_outboxPrefix (st : ServerState) (ws : Nat)
    (rawRoom rawSeat rawName fresh : String) :
    OutboxPrefix st (handleJoin st ws rawRoom rawSeat rawName fresh) := by
  by_cases hne : jsTrim rawRoom = ""
  · have heq : handleJoin st ws rawRoom rawSeat rawName fresh =
        send st ws (.error "room required") false := by
      unfold handleJoin
      simp [hne]
    rw [heq]
    exact outboxPrefix_of_only (send_outboxOnly st ws (.error "room required") false)
  · cases hsa : seatAssign (jsToUpperCase rawSeat)
        ((getEntry (jsTrim rawRoom) st.rooms).getD {}) with
    | rejected reason =>
      cases hr : getEntry (jsTrim rawRoom) st.rooms with
      | none =>
        rw [hr] at hsa
        exact absurd hsa (seatAssign_empty_not_rejected _ _)
      | some room =>
        have hsa' : seatAssign (jsToUpperCase rawSeat) room = .rejected reason := by
          rw [hr] at hsa
          exact hsa
        rw [handleJoin_rejected hne hr hsa']
        exact outboxPrefix_of_only (send_outboxOnly st ws (.error reason) false)
    | spectator =>
      rw [handleJoin_spectator hne hsa]
      apply outboxPrefix_broadcast_send
      rfl
    | seated s =>
      rw [handleJoin_seated hne hsa]
      apply outboxPrefix_broadcast_send
      rfl

theorem flush_outboxPrefix (st : ServerState) (dest : Nat) :
    OutboxPrefix st (flush st dest) := by
  cases hl : getEntry dest st.latest with
  | none =>
    refine ⟨[], ?_⟩
    rw [flush_empty hl]
    simp
  | some p =>
    rcases send_cases ({ st with ticking := st.ticking.erase dest } : ServerState)
      dest (SMsg.zones p.fromSeat p.zones p.seq) true with h | h
    · refine ⟨[], ?_⟩
      unfold flush
      simp [hl, h]
    · refine ⟨[(dest, SMsg.zones p.fromSeat p.zones p.seq)], ?_⟩
      unfold flush
      simp [hl, h]

theorem handlePong_outbox (st : ServerState) (ws : Nat) :
    (handlePong st ws).outbox = st.outbox := by
  unfold handlePong
  cases getEntry ws st.conns <;> rfl

theorem sweepOne_outboxPrefix (st : ServerState) (ws : Nat) :
    OutboxPrefix st (sweepOne st ws) := by
  unfold sweepOne
  cases hc : getEntry ws st.conns with
  | none => exact outboxPrefix_refl st
  | some c =>
    show OutboxPrefix st
      (if c.isOpen = false then st
       else if c.isAlive = false then closeConn st ws
       else { st with conns := setEntry ws { c with isAlive := false } st.conns,
                      pings := st.pings ++ [ws] })
    by_cases h1 : c.isOpen = false
    · rw [if_pos h1]
      exact outboxPrefix_refl st
    · rw [if_neg h1]
      by_cases h2 : c.isAlive = false
      · rw [if_pos h2]
        exact closeConn_outboxPrefix st ws
      · rw [if_neg h2]
        exact ⟨[], by simp⟩

theorem foldl_sweepOne_outboxPrefix :
    ∀ (l : List Nat) (st : ServerState), OutboxPrefix st (l.foldl sweepOne st) := by
  intro l
  induction l with
  | nil => exact fun st => outboxPrefix_refl st
  | cons x tl ih =>
    intro st
    exact outboxPrefix_trans (sweepOne_outboxPrefix st x) (ih _)

/-- Every event only appends to the outbox: messages already produced by
earlier membership changes keep their place, so roster broadcasts are
delivered in the order the membership changes occur. -/
theorem applyEvent_outboxPrefix (st : ServerState) (e : Event) :
    OutboxPrefix st (applyEvent st e) := by
  cases e with
  | evJoin ws room seat name fresh => exact handleJoin_outboxPrefix st ws room seat name fresh
  | evZones ws z seq =>
    exact ⟨[], by show (handleZones st ws z seq).outbox = _; rw [handleZones_outbox]; simp⟩
  | evPong ws =>
    exact ⟨[], by show (handlePong st ws).outbox = _; rw [handlePong_outbox]; simp⟩
  | evClose ws => exact closeConn_outboxPrefix st ws
  | evFlushTimer ws => exact flush_outboxPrefix st ws
  | evSweep => exact foldl_sweepOne_outboxPrefix _ st

/-- **C5.**  `broadcastRoom` sends, synchronously and without touching
the coalescing state, one `roster` message to seat A's occupant, seat B's
occupant and every spectator of the room (when their sockets are open),
whose entries are exactly the occupants of seats A and B — id, name and
seat — and never the spectators; and every event handler only appends to
the outbox, so roster messages are delivered in the order the membership
changes occur. -/
theorem roster_broadcast_spec :
    (∀ (st : ServerState) (roomId : String) (r : Room),
       getEntry roomId st.rooms = some r → AllOpen st (roomRecipients r) →
       broadcastRoom st roomId =
         { st with outbox := st.outbox ++
             (roomRecipients r).map (fun w => (w, SMsg.roster roomId (rosterOf r))) })
  ∧ (∀ (r : Room) (e : RosterEntry),
       e ∈ rosterOf r ↔
         ∃ p : Player, (r.A = some p ∨ r.B = some p) ∧ e = ⟨p.id, p.name, p.seat⟩)
  ∧ (∀ (r : Room) (specs : List Nat),
       rosterOf { r with spectators := specs } = rosterOf r)
  ∧ (∀ (st : ServerState) (roomId : String),
       OutboxOnly st (broadcastRoom st roomId))
  ∧ (∀ (st : ServerState) (e : Event), OutboxPrefix st (applyEvent st e)) := by
  refine ⟨?_, ?_, ?_, broadcastRoom_outboxOnly, applyEvent_outboxPrefix⟩
  · intro st roomId r hr hopen
    exact broadcastRoom_open hr hopen
  · intro r e
    have hmem : ∀ p : Player,
        p ∈ [r.A, r.B].filterMap id ↔ r.A = some p ∨ r.B = some p := by
      intro p
      cases hA : r.A <;> cases hB : r.B <;> simp [hA, hB] <;> tauto
    simp only [rosterOf, List.mem_map]
    constructor
    · rintro ⟨p, hp, rfl⟩
      exact ⟨p, (hmem p).1 hp, rfl⟩
    · rintro ⟨p, hp, rfl⟩
      exact ⟨p, (hmem p).2 hp, rfl⟩
  · intro r specs
    rfl

/-- Player and room used by the roster-broadcast witness. -/
def bP1 : Player := ⟨"Player-b1", 1, "r", .A, "B1", true⟩

def bRoom : Room := { A := some bP1, spectators := [5] }

def bSt : ServerState :=
  { rooms := [("r", bRoom)], conns := [(1, {}), (2, {}), (5, {})] }

/-- Witness for `roster_broadcast_spec`: a room with seat A occupied and
one spectator broadcasts the roster to both, in order. -/
theorem roster_broadcast_spec_witness :
    broadcastRoom bSt "r" =
      { bSt with outbox := bSt.outbox ++
          (roomRecipients bRoom).map (fun w => (w, SMsg.roster "r" (rosterOf bRoom))) } :=
  roster_broadcast_spec.1 bSt "r" bRoom (by decide)
    (by
      intro w hw
      have hw' : w = 1 ∨ w = 5 := by
        simpa [roomRecipients, bRoom, bP1] using hw
      rcases hw' with rfl | rfl
      · exact ⟨{}, by decide, rfl⟩
      · exact ⟨{}, by decide, rfl⟩)

/-! ## C6 -/

theorem push_ticking_self (st : ServerState) (sock : Nat) (p : ZonesPayload) :
    sock ∈ (push st sock p).ticking := by
  rw [push_eq]
  by_cases h : sock ∈ st.ticking <;> simp [h]

theorem push_ticking_mono {st : ServerState} {w : Nat} (sock : Nat)
    (p : ZonesPayload) (h : w ∈ st.ticking) : w ∈ (push st sock p).ticking := by
  rw [push_eq]
  by_cases hm : sock ∈ st.ticking <;> simp [hm, h]

theorem push_latest_same {st : ServerState} {sock : Nat} {p : ZonesPayload}
    (w : Nat) (h : getEntry w st.latest = some p) :
    getEntry w (push st sock p).latest = some p := by
  rw [push_eq]
  by_cases hm : sock ∈ st.ticking <;>
    simp only [hm, if_true, if_false] <;>
    · show getEntry w (setEntry sock p st.latest) = some p
      rw [getEntry_setEntry]
      by_cases hw : w = sock <;> simp [hw, h]

/-- Pushing one payload to a whole list of destinations marks the payload
pending and arms the timer for each of them (and preserves both facts for
destinations already holding the payload). -/
theorem foldl_push_invariant (p : ZonesPayload) (w : Nat) :
    ∀ (l : List Nat) (st : ServerState),
      (w ∈ l ∨ (getEntry w st.latest = some p ∧ w ∈ st.ticking)) →
      getEntry w ((l.foldl (fun s x => push s x p) st)).latest = some p
      ∧ w ∈ (l.foldl (fun s x => push s x p) st).ticking := by
  intro l
  induction l with
  | nil =>
    intro st h
    rcases h with h | h
    · simp at h
    · exact h
  | cons x tl ih =>
    intro st h
    show getEntry w ((tl.foldl (fun s x => push s x p) (push st x p))).latest = some p
      ∧ w ∈ (tl.foldl (fun s x => push s x p) (push st x p)).ticking
    apply ih
    rcases h with h | ⟨h1, h2⟩
    · rcases List.mem_cons.1 h with rfl | h
      · right
        exact ⟨push_latest_self st w p, push_ticking_self st w p⟩
      · left
        exact h
    · right
      exact ⟨push_latest_same w h1, push_ticking_mono x p h2⟩

/-- **C6.**  A `zones` message is accepted only from a connection
currently holding a seat: a connection with no `me` record (one that
never seat-joined, in particular any pure spectator — a spectator join
leaves `me` untouched) is ignored outright; an accepted update sends
nothing synchronously and instead hands the payload, tagged with the
sender's seat, to the coalescing scheduler — pending slot set and flush
timer armed — for the opposite seat's occupant and every spectator of
the sender's room. -/
theorem zones_seated_only :
    (∀ (st : ServerState) (ws z : Nat) (seq : Option Nat),
       getEntry ws st.me = none → handleZones st ws z seq = st)
  ∧ (∀ (st : ServerState) (ws : Nat) (rawRoom rawSeat rawName fresh : String),
       ¬jsTrim rawRoom = "" →
       seatAssign (jsToUpperCase rawSeat)
         ((getEntry (jsTrim rawRoom) st.rooms).getD {}) = .spectator →
       (handleJoin st ws rawRoom rawSeat rawName fresh).me = st.me)
  ∧ (∀ (st : ServerState) (ws z : Nat) (seq : Option Nat) (mp : Player) (room : Room),
       getEntry ws st.me = some mp →
       getEntry mp.room st.rooms = some room →
       (handleZones st ws z seq).outbox = st.outbox
       ∧ ∀ w : Nat,
           ((room.get mp.seat.other).map Player.ws = some w ∨ w ∈ room.spectators) →
           getEntry w (handleZones st ws z seq).latest = some ⟨mp.seat, z, seq⟩
           ∧ w ∈ (handleZones st ws z seq).ticking) := by
  refine ⟨?_, ?_, ?_⟩
  · intro st ws z seq h
    unfold handleZones
    rw [h]
  · intro st ws rawRoom rawSeat rawName fresh hne hsa
    rw [handleJoin_spectator hne hsa,
      (outboxOnly_fields (broadcastRoom_outboxOnly _ _)).2.2.1,
      (outboxOnly_fields (send_outboxOnly _ _ _ _)).2.2.1]
  · intro st ws z seq mp room hme hroom
    refine ⟨handleZones_outbox st ws z seq, ?_⟩
    intro w hw
    rw [handleZones_seated hme hroom]
    cases hop : room.get mp.seat.other with
    | some op =>
      apply foldl_push_invariant
      rcases hw with hw | hw
      · right
        rw [hop] at hw
        simp at hw
        subst hw
        exact ⟨push_latest_self st op.ws _, push_ticking_self st op.ws _⟩
      · left
        exact hw
    | none =>
      apply foldl_push_invariant
      rcases hw with hw | hw
      · rw [hop] at hw
        simp at hw
      · left
        exact hw

/-- State with one spectator connection (id 9, no `me` record) used as
the C6 witness. -/
def specSt : ServerState :=
  { rooms := [("r", { A := some bP1, spectators := [9] })],
    conns := [(1, {}), (9, {})] }

/-- Witness for `zones_seated_only`: a zones frame from the spectator
connection 9 (never seat-joined, so no `me` record) is ignored. -/
theorem zones_seated_only_witness :
    handleZones specSt 9 42 (some 7) = specSt :=
  zones_seated_only.1 specSt 9 42 (some 7) (by decide)

/-! ## C7 -/

theorem generateUniqueRoomId_isSome {rooms : List (String × Room)} :
    ∀ entropy : List (List Nat),
      (∃ bs ∈ entropy, getEntry (bytesToHex bs) rooms = none) →
      (generateUniqueRoomId rooms entropy).isSome = true := by
  intro entropy
  induction entropy with
  | nil =>
    rintro ⟨bs, h, _⟩
    simp at h
  | cons b tl ih =>
    rintro ⟨bs, hbs, hfree⟩
    unfold generateUniqueRoomId
    by_cases h : (getEntry (bytesToHex b) rooms).isSome
    · simp only [h, if_true]
      apply ih
      rcases List.mem_cons.1 hbs with rfl | hbs'
      · rw [hfree] at h
        simp at h
      · exact ⟨bs, hbs', hfree⟩
    · simp [h]

theorem generateUniqueRoomId_spec {rooms : List (String × Room)}
    {id : String} {rest : List (List Nat)} :
    ∀ entropy : List (List Nat),
      generateUniqueRoomId rooms entropy = some (id, rest) →
      getEntry id rooms = none ∧ ∃ bs ∈ entropy, id = bytesToHex bs := by
  intro entropy
  induction entropy with
  | nil =>
    intro h
    simp [generateUniqueRoomId] at h
  | cons b tl ih =>
    intro h
    unfold generateUniqueRoomId at h
    by_cases hb : (getEntry (bytesToHex b) rooms).isSome
    · simp only [hb, if_true] at h
      rcases ih h with ⟨h1, bs, h2, h3⟩
      exact ⟨h1, bs, by simp [h2], h3⟩
    · simp only [hb, if_false] at h
      have h2 : id = bytesToHex b ∧ rest = tl := by
        simpa using h.symm
      refine ⟨?_, b, by simp, h2.1⟩
      rw [h2.1]
      exact Option.not_isSome_iff_eq_none.1 hb

theorem createRoom_cases {entropy : List (List Nat)}
    {rooms : List (String × Room)} {id : String}
    {rooms' : List (String × Room)} {rest : List (List Nat)}
    (h : createRoom entropy rooms = some (id, rooms', rest)) :
    getEntry id rooms = none ∧ rooms' = setEntry id {} rooms
    ∧ getEntry id rooms' = some {} ∧ ∃ bs ∈ entropy, id = bytesToHex bs := by
  unfold createRoom at h
  cases hg : generateUniqueRoomId rooms entropy with
  | none =>
    rw [hg] at h
    exact absurd h (by simp)
  | some pr =>
    obtain ⟨id', rest'⟩ := pr
    rw [hg] at h
    rcases generateUniqueRoomId_spec entropy hg with ⟨hfree, hbs⟩
    have hnot : ¬(getEntry id' rooms).isSome = true := by
      rw [hfree]
      simp
    simp only [hnot, if_false] at h
    have h3 : id = id' ∧ rooms' = setEntry id' {} rooms ∧ rest = rest' := by
      simpa using h.symm
    obtain ⟨rfl, hrooms, rfl⟩ := h3
    refine ⟨hfree, hrooms, ?_, hbs⟩
    rw [hrooms, getEntry_setEntry]
    simp

theorem createRoom_mono {entropy : List (List Nat)}
    {rooms : List (String × Room)} {id : String}
    {rooms' : List (String × Room)} {rest : List (List Nat)}
    (h : createRoom entropy rooms = some (id, rooms', rest)) (k : String)
    (hk : (getEntry k rooms).isSome = true) :
    (getEntry k rooms').isSome = true := by
  rcases createRoom_cases h with ⟨_, hrooms, _, _⟩
  rw [hrooms, getEntry_setEntry]
  by_cases hkk : k = id <;> simp [hkk, hk]

theorem createRoomN_mono :
    ∀ (n : Nat) (entropy : List (List Nat)) (rooms : List (String × Room))
      (ids : List String) (rooms'' : List (String × Room)) (rest : List (List Nat)),
      createRoomN n entropy rooms = some (ids, rooms'', rest) →
      ∀ k, (getEntry k rooms).isSome = true → (getEntry k rooms'').isSome = true := by
  intro n
  induction n with
  | zero =>
    intro entropy rooms ids rooms'' rest h k hk
    have : ids = [] ∧ rooms'' = rooms ∧ rest = entropy := by
      simpa [createRoomN] using h.symm
    rw [this.2.1]
    exact hk
  | succ n ih =>
    intro entropy rooms ids rooms'' rest h k hk
    unfold createRoomN at h
    cases hc : createRoom entropy rooms with
    | none =>
      rw [hc] at h
      exact absurd h (by simp)
    | some tr =>
      obtain ⟨id, rooms1, rest1⟩ := tr
      rw [hc] at h
      have h' : (match createRoomN n rest1 rooms1 with
                 | none => none
                 | some (ids, rooms'', rest') => some (id :: ids, rooms'', rest')) =
          some (ids, rooms'', rest) := h
      cases hn : createRoomN n rest1 rooms1 with
      | none =>
        rw [hn] at h'
        exact absurd h' (by simp)
      | some tr2 =>
        obtain ⟨ids2, rooms2, rest2⟩ := tr2
        rw [hn] at h'
        have h3 : ids = id :: ids2 ∧ rooms'' = rooms2 ∧ rest = rest2 := by
          simpa using h'.symm
        rw [h3.2.1]
        exact ih _ _ _ _ _ hn k (createRoom_mono hc k hk)

theorem createRoomN_spec :
    ∀ (n : Nat) (entropy : List (List Nat)) (rooms : List (String × Room))
      (ids : List String) (rooms'' : List (String × Room)) (rest : List (List Nat)),
      createRoomN n entropy rooms = some (ids, rooms'', rest) →
      ids.length = n ∧ ids.Nodup ∧ (∀ i ∈ ids, getEntry i rooms = none)
      ∧ ∀ i ∈ ids, (getEntry i rooms'').isSome = true := by
  intro n
  induction n with
  | zero =>
    intro entropy rooms ids rooms'' rest h
    have h3 : ids = [] ∧ rooms'' = rooms ∧ rest = entropy := by
      simpa [createRoomN] using h.symm
    rw [h3.1]
    simp
  | succ n ih =>
    intro entropy rooms ids rooms'' rest h
    unfold createRoomN at h
    cases hc : createRoom entropy rooms with
    | none =>
      rw [hc] at h
      exact absurd h (by simp)
    | some tr =>
      obtain ⟨id, rooms1, rest1⟩ := tr
      rw [hc] at h
      have h' : (match createRoomN n rest1 rooms1 with
                 | none => none
                 | some (ids, rooms'', rest') => some (id :: ids, rooms'', rest')) =
          some (ids, rooms'', rest) := h
      cases hn : createRoomN n rest1 rooms1 with
      | none =>
        rw [hn] at h'
        exact absurd h' (by simp)
      | some tr2 =>
        obtain ⟨ids2, rooms2, rest2⟩ := tr2
        rw [hn] at h'
        have h3 : ids = id :: ids2 ∧ rooms'' = rooms2 ∧ rest = rest2 := by
          simpa using h'.symm
        obtain ⟨rfl, rfl, rfl⟩ := h3
        rcases createRoom_cases hc with ⟨hfree, hrooms1, hstored, _⟩
        rcases ih _ _ _ _ _ hn with ⟨hlen, hnodup, hfresh1, hsome2⟩
        have hfresh0 : ∀ i ∈ ids2, getEntry i rooms = none := by
          intro i hi
          have h1 := hfresh1 i hi
          rw [hrooms1, getEntry_setEntry] at h1
          by_cases hii : i = id
          · rw [if_pos hii] at h1
            exact absurd h1 (by simp)
          · rw [if_neg hii] at h1
            exact h1
        have hid_not : id ∉ ids2 := by
          intro hmem
          have h1 := hfresh1 id hmem
          rw [hrooms1, getEntry_setEntry, if_pos rfl] at h1
          exact absurd h1 (by simp)
        refine ⟨by simp [hlen], List.nodup_cons.2 ⟨hid_not, hnodup⟩, ?_, ?_⟩
        · intro i hi
          rcases List.mem_cons.1 hi with rfl | hi'
          · exact hfree
          · exact hfresh0 i hi'
        · intro i hi
          rcases List.mem_cons.1 hi with rfl | hi'
          · exact createRoomN_mono n rest1 rooms1 ids2 _ _ hn i
              (by rw [hstored]; rfl)
          · exact hsome2 i hi'

theorem hexDigitChar_mem :
    ∀ n < 16, hexDigitChar n ∈ ("0123456789abcdef").data := by
  decide

theorem bytesToHex_data_cons (b : Nat) (tl : List Nat) :
    (bytesToHex (b :: tl)).data =
      hexDigitChar (b / 16 % 16) :: hexDigitChar (b % 16) :: (bytesToHex tl).data :=
  rfl

theorem bytesToHex_length (bs : List Nat) :
    (bytesToHex bs).length = 2 * bs.length := by
  induction bs with
  | nil => rfl
  | cons b tl ih =>
    show (bytesToHex (b :: tl)).data.length = 2 * (b :: tl).length
    rw [bytesToHex_data_cons]
    simp only [List.length_cons]
    have ih' : (bytesToHex tl).data.length = 2 * tl.length := ih
    omega

theorem bytesToHex_chars (bs : List Nat) :
    ∀ ch ∈ (bytesToHex bs).data, ch ∈ ("0123456789abcdef").data := by
  induction bs with
  | nil => intro ch h; simp [bytesToHex] at h
  | cons b tl ih =>
    intro ch h
    rw [bytesToHex_data_cons] at h
    rcases List.mem_cons.1 h with rfl | h
    · exact hexDigitChar_mem _ (Nat.mod_lt _ (by norm_num))
    · rcases List.mem_cons.1 h with rfl | h
      · exact hexDigitChar_mem _ (Nat.mod_lt _ (by norm_num))
      · exact ih ch h

/-- **C7.**  `createRoom` succeeds whenever the entropy supply contains a
candidate whose hex rendering is unused (with genuinely random 128-bit
draws this is the "never fails" guarantee); the returned id was not in
use, is now bound to an empty room, and is the lowercase-hex rendering of
one of the 16-byte entropy draws — 32 characters of `0-9a-f`; and `N`
calls yield `N` pairwise-distinct room ids. -/
theorem createRoom_spec :
    (∀ (entropy : List (List Nat)) (rooms : List (String × Room)),
       (∃ bs ∈ entropy, getEntry (bytesToHex bs) rooms = none) →
       (createRoom entropy rooms).isSome = true)
  ∧ (∀ (entropy : List (List Nat)) (rooms : List (String × Room))
       (id : String) (rooms' : List (String × Room)) (rest : List (List Nat)),
       createRoom entropy rooms = some (id, rooms', rest) →
       getEntry id rooms = none ∧ getEntry id rooms' = some {}
       ∧ ∃ bs ∈ entropy, id = bytesToHex bs)
  ∧ (∀ bs : List Nat, bs.length = 16 → (bytesToHex bs).length = 32)
  ∧ (∀ (bs : List Nat) (ch : Char), ch ∈ (bytesToHex bs).data →
       ch ∈ ("0123456789abcdef").data)
  ∧ (∀ (n : Nat) (entropy : List (List Nat)) (rooms : List (String × Room))
       (ids : List String) (rooms'' : List (String × Room)) (rest : List (List Nat)),
       createRoomN n entropy rooms = some (ids, rooms'', rest) →
       ids.length = n ∧ ids.Nodup) := by
  refine ⟨?_, ?_, ?_, bytesToHex_chars, ?_⟩
  · intro entropy rooms h
    unfold createRoom
    cases hg : generateUniqueRoomId rooms entropy with
    | none =>
      rw [← hg]
      exact absurd (generateUniqueRoomId_isSome entropy h) (by rw [hg]; simp)
    | some pr => simp
  · intro entropy rooms id rooms' rest h
    rcases createRoom_cases h with ⟨h1, _, h3, h4⟩
    exact ⟨h1, h3, h4⟩
  · intro bs h
    rw [bytesToHex_length, h]
  · intro n entropy rooms ids rooms'' rest h
    rcases createRoomN_spec n entropy rooms ids rooms'' rest h with ⟨h1, h2, _, _⟩
    exact ⟨h1, h2⟩

/-- Witness for `createRoom_spec`: two creations from explicit 16-byte
entropy draws yield the two expected 32-character lowercase-hex ids. -/
theorem createRoom_spec_witness :
    (createRoom [List.replicate 16 0] []).isSome = true
    ∧ (bytesToHex (List.replicate 16 0)).length = 32
    ∧ (["00000000000000000000000000000000",
        "01010101010101010101010101010101"] : List String).Nodup :=
  ⟨createRoom_spec.1 [List.replicate 16 0] []
      ⟨List.replicate 16 0, by decide, by decide⟩,
   createRoom_spec.2.2.1 (List.replicate 16 0) (by decide),
   (createRoom_spec.2.2.2.2 2 [List.replicate 16 0, List.replicate 16 1] []
      ["00000000000000000000000000000000",
       "01010101010101010101010101010101"]
      [("00000000000000000000000000000000", {}),
       ("01010101010101010101010101010101", {})] []
      (by decide)).2⟩

/-! ## C9 -/

theorem sweepOne_alive {st : ServerState} {ws : Nat} {c : ConnInfo}
    (hc : getEntry ws st.conns = some c) (ho : c.isOpen = true)
    (ha : c.isAlive = true) :
    sweepOne st ws =
      { st with conns := setEntry ws { c with isAlive := false } st.conns,
                pings := st.pings ++ [ws] } := by
  unfold sweepOne
  rw [hc]
  show (if c.isOpen = false then st
        else if c.isAlive = false then closeConn st ws
        else { st with conns := setEntry ws { c with isAlive := false } st.conns,
                       pings := st.pings ++ [ws] }) = _
  simp [ho, ha]

theorem sweepOne_dead {st : ServerState} {ws : Nat} {c : ConnInfo}
    (hc : getEntry ws st.conns = some c) (ho : c.isOpen = true)
    (ha : c.isAlive = false) :
    sweepOne st ws = closeConn st ws := by
  unfold sweepOne
  rw [hc]
  show (if c.isOpen = false then st
        else if c.isAlive = false then closeConn st ws
        else { st with conns := setEntry ws { c with isAlive := false } st.conns,
                       pings := st.pings ++ [ws] }) = _
  simp [ho, ha]

theorem handlePong_eq {st : ServerState} {ws : Nat} {c : ConnInfo}
    (hc : getEntry ws st.conns = some c) :
    handlePong st ws =
      { st with conns := setEntry ws { c with isAlive := true } st.conns } := by
  unfold handlePong
  rw [hc]

/-- Players and state for the two-failed-probes scenario: seats A and B
of room `"hr"` on connections 1 and 2. -/
def hbP1 : Player := ⟨"Player-h1", 1, "hr", .A, "H1", true⟩

def hbP2 : Player := ⟨"Player-h2", 2, "hr", .B, "H2", true⟩

def hbSt : ServerState :=
  { rooms := [("hr", { A := some hbP1, B := some hbP2 })],
    conns := [(1, {}), (2, {})],
    me := [(1, hbP1), (2, hbP2)] }

/-- Two heartbeat sweeps; connection 2 answers the first probe,
connection 1 stays silent. -/
def hbEvents : List Event := [.evSweep, .evPong 2, .evSweep]

/-- **C9.**  At each sweep an open confirmed connection is marked
unconfirmed and pinged, an open connection still unconfirmed at probe
time is forcibly closed, and a pong resets the connection to confirmed;
the forced closure is by definition the same cleanup as any other
disconnect.  Concretely, a seated connection that misses two consecutive
probes while its peer answers is closed and removed from its room, each
open connection is probed at each sweep it survives, and the remaining
peer receives a roster that no longer lists the dead player. -/
theorem heartbeat_liveness :
    (∀ (st : ServerState) (ws : Nat) (c : ConnInfo),
       getEntry ws st.conns = some c → c.isOpen = true → c.isAlive = true →
       sweepOne st ws =
         { st with conns := setEntry ws { c with isAlive := false } st.conns,
                   pings := st.pings ++ [ws] })
  ∧ (∀ (st : ServerState) (ws : Nat) (c : ConnInfo),
       getEntry ws st.conns = some c → c.isOpen = true → c.isAlive = false →
       sweepOne st ws = closeConn st ws)
  ∧ (∀ (st : ServerState) (ws : Nat) (c : ConnInfo),
       getEntry ws st.conns = some c →
       handlePong st ws =
         { st with conns := setEntry ws { c with isAlive := true } st.conns })
  ∧ (∀ (st : ServerState) (ws : Nat),
       closeConn st ws = handleClose (markClosed st ws) ws)
  ∧ ((getEntry 1 (applyEvents hbSt hbEvents).conns).map ConnInfo.isOpen = some false
     ∧ getEntry "hr" (applyEvents hbSt hbEvents).rooms =
         some { A := none, B := some hbP2, spectators := [] }
     ∧ (applyEvents hbSt hbEvents).outbox =
         [(2, SMsg.roster "hr" [⟨"Player-h2", "H2", .B⟩])]
     ∧ (applyEvents hbSt hbEvents).pings = [1, 2, 2]) := by
  refine ⟨?_, ?_, ?_, fun st ws => rfl, ?_⟩
  · intro st ws c hc ho ha
    exact sweepOne_alive hc ho ha
  · intro st ws c hc ho ha
    exact sweepOne_dead hc ho ha
  · intro st ws c hc
    exact handlePong_eq hc
  · refine ⟨?_, ?_, ?_, ?_⟩ <;> decide

/-- Witness for `heartbeat_liveness`: the first sweep marks connection 1
unconfirmed and pings it; a dead connection is terminated; a pong
restores the confirmed state. -/
theorem heartbeat_liveness_witness :
    sweepOne hbSt 1 =
      { hbSt with
          conns := setEntry 1 { isOpen := true, buffered := 0, isAlive := false } hbSt.conns,
          pings := hbSt.pings ++ [1] }
    ∧ handlePong hbSt 2 =
      { hbSt with
          conns := setEntry 2 { isOpen := true, buffered := 0, isAlive := true } hbSt.conns } :=
  ⟨heartbeat_liveness.1 hbSt 1 {} (by decide) (by decide) (by decide),
   heartbeat_liveness.2.2.1 hbSt 2 {} (by decide)⟩

end WsRelay
